import Mathlib

/-!
Verification of the capital-gains comparator (`theInternCalc/calculator.py`).

The development shallowly embeds the core of `calculator.py`:
the per-asset FIFO/LIFO lot inventories, the average-cost ledger, the
per-asset per-year gain accumulators, the enhanced-sale recorder, the
transaction processor (`process_buy`, `process_sell`, the dispatch loop of
`process_transactions`) and the report builder (`generate_report_df`).

Modelling choices:
- Python floats are modelled as exact rationals (the design documents treat
  quantities, prices and values as reals).
- Python dict-of-year float accumulators (`defaultdict(float)`) are modelled
  as insertion-ordered association lists `List (Int × ℚ)`; the outer
  per-asset dictionaries (`defaultdict(list)` etc.) are modelled as total
  functions from asset names with the default value, which captures the
  auto-creating lookup of `defaultdict`.
- The `ZeroDivisionError` raised by `sale_price = total_value / quantity`
  when a SELL has quantity 0 is modelled by `processSell` returning `none`;
  the error propagates, so a run containing such a row yields `none`.
- Timestamps are opaque naturals carried for record fields; the calendar
  year of a transaction (`ts.year` in the source) is carried as a field of
  the transaction, and the input list is the chronologically sorted stream
  that `process_transactions` iterates after its `sort_values` call.
- The LIFO loop of the source pops from the tail of the lot list; to keep
  the function structurally recursive (hence kernel-computable) it is
  defined on the reversed list, and its tail-step behaviour is established
  by the lemmas `consumeLIFO_concat`, `consumeLIFO_nil` and
  `consumeLIFO_of_nonpos`, and by the fueled transcription
  `consumeLIFOFuel` that works on `getLast?`/`dropLast` directly.
-/

/-- Lot of a purchase: remaining quantity, unit price, acquisition
timestamp (the dict `{"quantity": ..., "price": ..., "timestamp": ...}`
built in `process_buy`). -/
structure Lot where
  quantity : ℚ
  price : ℚ
  ts : ℕ
deriving DecidableEq, Repr

/-- Transaction row: the validated fields of one CSV row. `year` is the
calendar year of the timestamp (`ts.year` in `process_sell`). -/
structure Tx where
  ts : ℕ
  year : Int
  txnType : String
  asset : String
  quantity : ℚ
  price : ℚ
  totalValue : ℚ
deriving DecidableEq, Repr

/-- Enhanced-sale record, with the fields of the dict appended to
`enhanced_transactions` in `process_sell`. -/
structure EnhancedRecord where
  ts : ℕ
  asset : String
  txnType : String
  quantity : ℚ
  matchedQuantity : ℚ
  enhancedQuantity : ℚ
  salePrice : ℚ
  enhancedValue : ℚ
  dataStatus : String
deriving DecidableEq, Repr

/-- Total available quantity of a lot list:
`sum(lot["quantity"] for lot in lots)`. -/
def sumQty (lots : List Lot) : ℚ :=
  (lots.map Lot.quantity).sum

/-- Total cost basis carried by a lot list (sum of quantity × price). -/
def sumCost (lots : List Lot) : ℚ :=
  (lots.map (fun l => l.quantity * l.price)).sum

/-- Year-keyed gain accumulator of one asset: an insertion-ordered
association list modelling `defaultdict(float)`. -/
abbrev YMap := List (Int × ℚ)

/-- Add `v` to the accumulator of year `y` (`gains[asset][year] += v`):
an existing entry for `y` is updated in place, otherwise a fresh entry is
appended, matching the auto-creation of `defaultdict(float)`. -/
def addYear : YMap → Int → ℚ → YMap
  | [], y, v => [(y, v)]
  | (y0, a) :: rest, y, v =>
      if y0 = y then (y0, a + v) :: rest else (y0, a) :: addYear rest y v

/-- Value stored for year `y`, 0 when absent (`.get(year, 0.0)`). -/
def getY (ym : YMap) (y : Int) : ℚ :=
  (ym.lookup y).getD 0

/-- Sum of the gains of all years of one asset. -/
def totalY (ym : YMap) : ℚ :=
  (ym.map Prod.snd).sum

/-- Per-asset gain ledger of one method (`defaultdict(lambda: defaultdict(float))`),
modelled as a total function with default `[]`. -/
abbrev Gains := String → YMap

/-- `gains[asset][year] += v` on a ledger. -/
def addGain (g : Gains) (a : String) (y : Int) (v : ℚ) : Gains :=
  Function.update g a (addYear (g a) y v)

/-- State threaded through `process_transactions`: the two lot
inventories, the average-cost totals `(quantity, total_cost)`, the three
gain ledgers and the enhanced-transaction list. -/
structure ProcState where
  buyLotsFifo : String → List Lot
  buyLotsLifo : String → List Lot
  avgTotals : String → ℚ × ℚ
  fifoGains : Gains
  lifoGains : Gains
  avgCostGains : Gains
  enhancedTxs : List EnhancedRecord

/-- Empty starting state of one processing run. -/
def initState : ProcState :=
  ⟨fun _ => [], fun _ => [], fun _ => (0, 0), fun _ => [], fun _ => [], fun _ => [], []⟩

/-- Strip leading and trailing whitespace from a character list
(`str.strip()`). -/
def trimChars (l : List Char) : List Char :=
  ((l.dropWhile (·.isWhitespace)).reverse.dropWhile (·.isWhitespace)).reverse

/-- Normalisation applied before dispatch:
`row["Transaction Type"].strip().upper()`. -/
def normType (s : String) : String :=
  ⟨(trimChars s.data).map Char.toUpper⟩

/-- One iteration sequence of the FIFO while loop of `process_sell`:
`while remaining > 0 and lots:` take the head lot; if its quantity
strictly exceeds `remaining`, split it and stop; otherwise realise the
whole lot, pop it and continue. Returns the final lot list and the total
gain accumulated by the loop. -/
def consumeFIFO (lots : List Lot) (remaining salePrice : ℚ) : List Lot × ℚ :=
  if 0 < remaining then
    match lots with
    | [] => ([], 0)
    | lot :: rest =>
        if lot.quantity > remaining then
          ({ lot with quantity := lot.quantity - remaining } :: rest,
            remaining * salePrice - remaining * lot.price)
        else
          let r := consumeFIFO rest (remaining - lot.quantity) salePrice
          (r.1, lot.quantity * salePrice - lot.quantity * lot.price + r.2)
  else (lots, 0)

/-- The LIFO while loop of `process_sell` (it reads `lots[-1]` and uses
`pop()` at the tail); defined on the reversed list so that the recursion
is structural. `consumeLIFO_concat` below shows the definition performs
exactly the tail-step of the source loop. -/
def consumeLIFO (lots : List Lot) (remaining salePrice : ℚ) : List Lot × ℚ :=
  ((consumeFIFO lots.reverse remaining salePrice).1.reverse,
    (consumeFIFO lots.reverse remaining salePrice).2)

/-- Fuelled transcription of the FIFO loop, one fuel unit per iteration;
`none` means the fuel ran out before the loop exited. -/
def consumeFIFOFuel : ℕ → List Lot → ℚ → ℚ → Option (List Lot × ℚ)
  | 0, _, _, _ => none
  | fuel + 1, lots, remaining, salePrice =>
      if 0 < remaining then
        match lots with
        | [] => some ([], 0)
        | lot :: rest =>
            if lot.quantity > remaining then
              some ({ lot with quantity := lot.quantity - remaining } :: rest,
                remaining * salePrice - remaining * lot.price)
            else
              (consumeFIFOFuel fuel rest (remaining - lot.quantity) salePrice).map
                (fun r => (r.1, lot.quantity * salePrice - lot.quantity * lot.price + r.2))
      else some (lots, 0)

/-- Fuelled transcription of the LIFO loop, working on the tail of the
lot list exactly as the source does (`lots[-1]`, `pop()`). -/
def consumeLIFOFuel : ℕ → List Lot → ℚ → ℚ → Option (List Lot × ℚ)
  | 0, _, _, _ => none
  | fuel + 1, lots, remaining, salePrice =>
      if 0 < remaining then
        match lots.getLast? with
        | none => some ([], 0)
        | some lot =>
            if lot.quantity > remaining then
              some (lots.dropLast ++ [{ lot with quantity := lot.quantity - remaining }],
                remaining * salePrice - remaining * lot.price)
            else
              (consumeLIFOFuel fuel lots.dropLast (remaining - lot.quantity) salePrice).map
                (fun r => (r.1, lot.quantity * salePrice - lot.quantity * lot.price + r.2))
      else some (lots, 0)

/-- Status tag of an enhanced record. -/
def statusEnhanced : String := "enhanced"

/-- `process_buy`: append a copy of the new lot to both inventories and
add the value and the quantity to the average-cost totals. -/
def processBuy (tx : Tx) (s : ProcState) : ProcState :=
  let lot : Lot := ⟨tx.quantity, tx.price, tx.ts⟩
  { s with
    buyLotsFifo := Function.update s.buyLotsFifo tx.asset (s.buyLotsFifo tx.asset ++ [lot]),
    buyLotsLifo := Function.update s.buyLotsLifo tx.asset (s.buyLotsLifo tx.asset ++ [lot]),
    avgTotals := Function.update s.avgTotals tx.asset
      ((s.avgTotals tx.asset).1 + tx.quantity, (s.avgTotals tx.asset).2 + tx.totalValue) }

/-- Successful branch of `process_sell` (reached when the quantity is
nonzero): FIFO consumption and its enhanced remainder (which also
appends the one enhanced record of the row), the independent LIFO
consumption and its enhanced remainder (no record), and the average-cost
update with the average unit cost computed before any mutation. -/
def sellResult (tx : Tx) (s : ProcState) : ProcState :=
  let quantity := tx.quantity
  let salePrice := tx.totalValue / quantity
  let availableFifo := sumQty (s.buyLotsFifo tx.asset)
  let matchedFifo := min quantity availableFifo
  let fifoRes := consumeFIFO (s.buyLotsFifo tx.asset) matchedFifo salePrice
  let fifoGains1 := addGain s.fifoGains tx.asset tx.year fifoRes.2
  let enhancedQty := quantity - matchedFifo
  let fifoGains2 :=
    if 0 < enhancedQty then addGain fifoGains1 tx.asset tx.year (enhancedQty * salePrice)
    else fifoGains1
  let enhanced2 :=
    if 0 < enhancedQty then
      s.enhancedTxs ++ [⟨tx.ts, tx.asset, tx.txnType, quantity, matchedFifo, enhancedQty,
        salePrice, enhancedQty * salePrice, statusEnhanced⟩]
    else s.enhancedTxs
  let availableLifo := sumQty (s.buyLotsLifo tx.asset)
  let matchedLifo := min quantity availableLifo
  let lifoRes := consumeLIFO (s.buyLotsLifo tx.asset) matchedLifo salePrice
  let lifoGains1 := addGain s.lifoGains tx.asset tx.year lifoRes.2
  let lifoGains2 :=
    if 0 < quantity - matchedLifo then
      addGain lifoGains1 tx.asset tx.year ((quantity - matchedLifo) * salePrice)
    else lifoGains1
  let availableAvg := (s.avgTotals tx.asset).1
  let matchedAvg := min quantity availableAvg
  let avgCost := if 0 < availableAvg then (s.avgTotals tx.asset).2 / availableAvg else 0
  let avgGains2 := addGain s.avgCostGains tx.asset tx.year (quantity * (salePrice - avgCost))
  { buyLotsFifo := Function.update s.buyLotsFifo tx.asset fifoRes.1,
    buyLotsLifo := Function.update s.buyLotsLifo tx.asset lifoRes.1,
    avgTotals := Function.update s.avgTotals tx.asset
      (max 0 (availableAvg - quantity), max 0 ((s.avgTotals tx.asset).2 - matchedAvg * avgCost)),
    fifoGains := fifoGains2,
    lifoGains := lifoGains2,
    avgCostGains := avgGains2,
    enhancedTxs := enhanced2 }

/-- `process_sell`. The unguarded `sale_price = total_value / quantity`
raises `ZeroDivisionError` when the quantity is 0, modelled by `none`;
otherwise the state is updated as described at `sellResult`. -/
def processSell (tx : Tx) (s : ProcState) : Option ProcState :=
  if tx.quantity = 0 then none else some (sellResult tx s)

/-- Dispatch of one row in the loop of `process_transactions`: normalise
the type, run `process_buy` or `process_sell`, silently skip other types. -/
def processRow (s : ProcState) (tx : Tx) : Option ProcState :=
  if normType tx.txnType = "BUY" then some (processBuy tx s)
  else if normType tx.txnType = "SELL" then processSell tx s
  else some s

/-- Run the chronologically sorted stream; `none` when a row raised. -/
def runTxs : List Tx → ProcState → Option ProcState
  | [], s => some s
  | tx :: rest, s =>
      match processRow s tx with
      | none => none
      | some s2 => runTxs rest s2

/-- `process_transactions` on the sorted stream, from empty state. -/
def processTransactions (txs : List Tx) : Option ProcState :=
  runTxs txs initState

/-- Sale unit price of a SELL row: `total_value / quantity`. -/
def sellSalePrice (tx : Tx) : ℚ :=
  tx.totalValue / tx.quantity

/-- FIFO matched quantity of a SELL row against a state:
`min(quantity, available_fifo)`. -/
def sellMatchedFifo (tx : Tx) (s : ProcState) : ℚ :=
  min tx.quantity (sumQty (s.buyLotsFifo tx.asset))

/-- LIFO matched quantity of a SELL row against a state. -/
def sellMatchedLifo (tx : Tx) (s : ProcState) : ℚ :=
  min tx.quantity (sumQty (s.buyLotsLifo tx.asset))

/-- Average unit cost of an asset:
`total_cost / quantity` when the quantity is positive, else 0. -/
def acbAvgCost (s : ProcState) (a : String) : ℚ :=
  if 0 < (s.avgTotals a).1 then (s.avgTotals a).2 / (s.avgTotals a).1 else 0

/-- Total FIFO gain (all years) the asset ledger records for a single
sell, 0 when the sell raises. -/
def fifoDelta (tx : Tx) (s : ProcState) : ℚ :=
  ((processSell tx s).map (fun s2 => totalY (s2.fifoGains tx.asset) - totalY (s.fifoGains tx.asset))).getD 0

/-- Total LIFO gain the ledger records for a single sell. -/
def lifoDelta (tx : Tx) (s : ProcState) : ℚ :=
  ((processSell tx s).map (fun s2 => totalY (s2.lifoGains tx.asset) - totalY (s.lifoGains tx.asset))).getD 0

/-- Total average-cost gain the ledger records for a single sell. -/
def acbDelta (tx : Tx) (s : ProcState) : ℚ :=
  ((processSell tx s).map (fun s2 => totalY (s2.avgCostGains tx.asset) - totalY (s.avgCostGains tx.asset))).getD 0

/-- The same sell reduced to a declared quantity `m` (at the same unit
price), used to isolate the contribution of the unmatched portion. -/
def matchedOnlyTx (tx : Tx) (m : ℚ) : Tx :=
  { tx with quantity := m, totalValue := m * sellSalePrice tx }

/-- Contribution of the unmatched portion of a sell to the ACB ledger:
the recorded gain minus the gain that selling only the ACB-matched
quantity from the same state would record. -/
def acbUnmatchedContrib (tx : Tx) (s : ProcState) : ℚ :=
  acbDelta tx s - acbDelta (matchedOnlyTx tx (min tx.quantity (s.avgTotals tx.asset).1)) s

/-- Contribution of the unmatched portion of a sell to the FIFO ledger. -/
def fifoUnmatchedContrib (tx : Tx) (s : ProcState) : ℚ :=
  fifoDelta tx s - fifoDelta (matchedOnlyTx tx (sellMatchedFifo tx s)) s

/-- Contribution of the unmatched portion of a sell to the LIFO ledger. -/
def lifoUnmatchedContrib (tx : Tx) (s : ProcState) : ℚ :=
  lifoDelta tx s - lifoDelta (matchedOnlyTx tx (min tx.quantity (sumQty (s.buyLotsLifo tx.asset)))) s

/-- Enhanced-transaction list after a single sell (unchanged on raise). -/
def enhancedAfterSell (tx : Tx) (s : ProcState) : List EnhancedRecord :=
  ((processSell tx s).map ProcState.enhancedTxs).getD s.enhancedTxs

/-- Average-cost totals of the sold asset after a single sell. -/
def avgTotalsAfterSell (tx : Tx) (s : ProcState) : ℚ × ℚ :=
  ((processSell tx s).map (fun s2 => s2.avgTotals tx.asset)).getD (0, 0)

/-- Available FIFO quantity of an asset after processing a stream. -/
def fifoAvailAfter (txs : List Tx) (a : String) : ℚ :=
  ((runTxs txs initState).map (fun s => sumQty (s.buyLotsFifo a))).getD 0

/-- Available LIFO quantity of an asset after processing a stream. -/
def lifoAvailAfter (txs : List Tx) (a : String) : ℚ :=
  ((runTxs txs initState).map (fun s => sumQty (s.buyLotsLifo a))).getD 0

/-- Average-cost cumulative quantity of an asset after a stream. -/
def avgQtyAfter (txs : List Tx) (a : String) : ℚ :=
  ((runTxs txs initState).map (fun s => (s.avgTotals a).1)).getD 0

/-- Average-cost cumulative cost of an asset after a stream. -/
def avgCostAfter (txs : List Tx) (a : String) : ℚ :=
  ((runTxs txs initState).map (fun s => (s.avgTotals a).2)).getD 0

/-- All-years FIFO gain of an asset after a stream. -/
def fifoTotalAfter (txs : List Tx) (a : String) : ℚ :=
  ((runTxs txs initState).map (fun s => totalY (s.fifoGains a))).getD 0

/-- All-years LIFO gain of an asset after a stream. -/
def lifoTotalAfter (txs : List Tx) (a : String) : ℚ :=
  ((runTxs txs initState).map (fun s => totalY (s.lifoGains a))).getD 0

/-- True when the final enhanced-transaction list has no record for the
asset (every sell of the asset was fully FIFO-matched). -/
def noRecAfter (txs : List Tx) (a : String) : Bool :=
  ((runTxs txs initState).map (fun s => s.enhancedTxs.all (fun r => ! (r.asset == a)))).getD true

/-- Total declared BUY quantity of an asset over a stream. -/
def totalBoughtQty (txs : List Tx) (a : String) : ℚ :=
  ((txs.filter (fun tx => normType tx.txnType == "BUY" && tx.asset == a)).map Tx.quantity).sum

/-- Total declared SELL quantity of an asset over a stream. -/
def totalSoldQty (txs : List Tx) (a : String) : ℚ :=
  ((txs.filter (fun tx => normType tx.txnType == "SELL" && tx.asset == a)).map Tx.quantity).sum

/-- Reduce the quantity of the head lot by `d` (the split of the FIFO
boundary lot). -/
def reduceHead (d : ℚ) : List Lot → List Lot
  | [] => []
  | l :: rest => { l with quantity := l.quantity - d } :: rest

/-- Reduce the quantity of the last lot by `d` (the split of the LIFO
boundary lot). -/
def reduceLast (d : ℚ) (l : List Lot) : List Lot :=
  (reduceHead d l.reverse).reverse

/-- Unit price of the head lot, 0 for an empty list. -/
def headPrice : List Lot → ℚ
  | [] => 0
  | l :: _ => l.price

/-- Unit price of the last lot, 0 for an empty list. -/
def lastPrice (l : List Lot) : ℚ :=
  headPrice l.reverse

/-- Gain ledger as `generate_report_df` receives it: an asset-keyed
association list of year-keyed association lists (a Python dict of
dicts). -/
abbrev Ledger := List (String × YMap)

/-- Year map of an asset in a ledger, `{}` when absent (the defaultdict
auto-creates an empty entry). -/
def lookupA (led : Ledger) (a : String) : YMap :=
  (led.lookup a).getD []

/-- Asset keys of a ledger. -/
def ledgerAssets (led : Ledger) : List String :=
  led.map Prod.fst

/-- Year keys of a year map. -/
def yearKeys (ym : YMap) : List Int :=
  ym.map Prod.fst

/-- One row of the report: Year, Asset, LIFO G&L, FIFO G&L, ACB G&L (the
column order of `generate_report_df`). -/
structure ReportRow where
  year : Int
  asset : String
  lifoGL : ℚ
  fifoGL : ℚ
  acbGL : ℚ
deriving DecidableEq, Repr

/-- Row order of the final report: year descending, then asset ascending
(`sort_values(by=["Year", "Asset"], ascending=[False, True])`). -/
def rowLE (r s : ReportRow) : Bool :=
  decide (s.year < r.year ∨ (r.year = s.year ∧ r.asset ≤ s.asset))

/-- `sorted(set(...))` over the asset keys of the three ledgers. -/
def reportAssets (f l acb : Ledger) : List String :=
  ((ledgerAssets f ++ ledgerAssets l ++ ledgerAssets acb).dedup).mergeSort
    (fun a b => decide (a ≤ b))

/-- `sorted(...)` of the union of the year keys of one asset. -/
def reportYears (f l acb : Ledger) (a : String) : List Int :=
  ((yearKeys (lookupA f a) ++ yearKeys (lookupA l a) ++ yearKeys (lookupA acb a)).dedup).mergeSort
    (fun x y => decide (x ≤ y))

/-- The rows appended by the double loop of `generate_report_df`:
assets in sorted order, years of each asset in ascending order, missing
entries filled with 0. -/
def generateReportRows (f l acb : Ledger) : List ReportRow :=
  (reportAssets f l acb).flatMap (fun a =>
    (reportYears f l acb a).map (fun y =>
      ⟨y, a, getY (lookupA l a) y, getY (lookupA f a) y, getY (lookupA acb a) y⟩))

/-- `generate_report_df`: build the rows, then sort by year descending
and asset ascending. -/
def generateReport (f l acb : Ledger) : List ReportRow :=
  (generateReportRows f l acb).mergeSort rowLE

-- Concrete inputs for witnesses and counterexamples.

/-- Zero-quantity SELL row (claim C1). -/
def c1tx : Tx := ⟨1, 2024, "SELL", "BTC", 0, 0, 0⟩

/-- Stream containing only the zero-quantity sell. -/
def c1stream : List Tx := [c1tx]

/-- State holding 1 unit bought at 10 (cost 10) of asset A. -/
def c2state : ProcState := processBuy ⟨1, 2024, "BUY", "A", 1, 10, 10⟩ initState

/-- Sell of 2 units of asset A for a total of 40 (unit price 20), against
holdings of only 1 unit. -/
def c2sell : Tx := ⟨2, 2024, "SELL", "A", 2, 20, 40⟩

/-- Sell of 2 units of asset E for 100 with no prior holdings (the
enhanced scenario of the design document). -/
def c2sellEmpty : Tx := ⟨1, 2024, "SELL", "E", 2, 50, 100⟩

/-- Two-lot inventory for the consumption witness. -/
def c3lots : List Lot := [⟨5, 10, 1⟩, ⟨3, 20, 2⟩]

/-- State holding 10 units bought at 100 (cost 1000) of asset B (the
scenario of the design document). -/
def c4state : ProcState := processBuy ⟨1, 2024, "BUY", "B", 10, 100, 1000⟩ initState

/-- Sell of 4 units of asset B for 600 (unit price 150). -/
def c4sell : Tx := ⟨2, 2024, "SELL", "B", 4, 150, 600⟩

/-- Buy-then-sell stream on asset A (fully matched). -/
def c6stream : List Tx :=
  [⟨1, 2024, "BUY", "A", 10, 100, 1000⟩, ⟨2, 2024, "SELL", "A", 4, 150, 600⟩]

/-- Counterexample stream for claim C7: an enhanced sell before any buy,
then two buys at different prices, then a fully matched sell. Total
bought quantity (2) equals total sold quantity (2), yet FIFO and LIFO
consume different lots in the final sell. -/
def c7stream : List Tx :=
  [⟨1, 2024, "SELL", "A", 1, 50, 50⟩,
   ⟨2, 2024, "BUY", "A", 1, 10, 10⟩,
   ⟨3, 2024, "BUY", "A", 1, 20, 20⟩,
   ⟨4, 2024, "SELL", "A", 1, 50, 50⟩]

/-- Fully matched buy-then-sell stream on asset A for the C7 witness. -/
def c7okStream : List Tx :=
  [⟨1, 2024, "BUY", "A", 1, 10, 10⟩, ⟨2, 2024, "SELL", "A", 1, 50, 50⟩]

/-- Per-asset invariant tying the two inventories and their gain totals
together along a run: all lots have positive quantity, the two available
totals agree, the difference of the recorded gain totals equals the
difference of the inventory cost bases, and, as long as no enhanced
record exists for the asset, the available total equals `net` (bought
minus sold so far). -/
def AssetInv (a : String) (s : ProcState) (net : ℚ) : Prop :=
  (∀ l ∈ s.buyLotsFifo a, 0 < l.quantity) ∧
  (∀ l ∈ s.buyLotsLifo a, 0 < l.quantity) ∧
  sumQty (s.buyLotsFifo a) = sumQty (s.buyLotsLifo a) ∧
  totalY (s.fifoGains a) - totalY (s.lifoGains a) =
    sumCost (s.buyLotsFifo a) - sumCost (s.buyLotsLifo a) ∧
  ((∀ r ∈ s.enhancedTxs, r.asset ≠ a) → sumQty (s.buyLotsFifo a) = net)

-- Evaluation helpers for concrete runs (string normalisation facts).

theorem normTypeBuyEval : normType ("BUY") = "BUY" := by decide

theorem normTypeSellEval : normType ("SELL") = "SELL" := by decide

theorem stringSellNeBuy : (("SELL" : String) = "BUY") = False := by decide

-- Basic accounting lemmas.

theorem sumQty_nil : sumQty [] = 0 := rfl

theorem sumQty_cons (l : Lot) (ls : List Lot) : sumQty (l :: ls) = l.quantity + sumQty ls := by
  simp [sumQty]

theorem sumQty_append (xs ys : List Lot) : sumQty (xs ++ ys) = sumQty xs + sumQty ys := by
  simp [sumQty]

theorem sumQty_reverse (xs : List Lot) : sumQty xs.reverse = sumQty xs := by
  simp [sumQty, List.sum_reverse]

theorem sumCost_nil : sumCost [] = 0 := rfl

theorem sumCost_cons (l : Lot) (ls : List Lot) :
    sumCost (l :: ls) = l.quantity * l.price + sumCost ls := by
  simp [sumCost]

theorem sumCost_append (xs ys : List Lot) : sumCost (xs ++ ys) = sumCost xs + sumCost ys := by
  simp [sumCost]

theorem sumCost_reverse (xs : List Lot) : sumCost xs.reverse = sumCost xs := by
  simp [sumCost, List.sum_reverse]

theorem sumQty_nonneg (xs : List Lot) (h : ∀ l ∈ xs, 0 ≤ l.quantity) : 0 ≤ sumQty xs := by
  induction xs with
  | nil => simp [sumQty_nil]
  | cons l ls ih =>
      rw [sumQty_cons]
      have h1 := h l (List.mem_cons_self l ls)
      have h2 := ih (fun x hx => h x (List.mem_cons_of_mem l hx))
      linarith

theorem totalY_addYear (ym : YMap) (y : Int) (v : ℚ) :
    totalY (addYear ym y v) = totalY ym + v := by
  induction ym with
  | nil => simp [addYear, totalY]
  | cons e rest ih =>
      obtain ⟨y0, a⟩ := e
      by_cases hy : y0 = y
      · simp [addYear, hy, totalY]; ring
      · simp [addYear, hy, totalY] at ih ⊢; linarith

theorem getY_addYear (ym : YMap) (y : Int) (v : ℚ) :
    getY (addYear ym y v) y = getY ym y + v := by
  induction ym with
  | nil => simp [addYear, getY]
  | cons e rest ih =>
      obtain ⟨y0, a⟩ := e
      by_cases hy : y0 = y
      · subst hy; simp [addYear, getY]
      · have hb : (y == y0) = false := beq_eq_false_iff_ne.mpr (Ne.symm hy)
        simp [addYear, hy, getY, List.lookup, hb] at ih ⊢
        exact ih

theorem addGain_self (g : Gains) (a : String) (y : Int) (v : ℚ) :
    addGain g a y v a = addYear (g a) y v := by
  simp [addGain]

theorem addGain_other (g : Gains) (a : String) (y : Int) (v : ℚ) (a2 : String) (h : a2 ≠ a) :
    addGain g a y v a2 = g a2 := by
  simp [addGain, Function.update_noteq h]

-- Lemmas on the FIFO consumption loop.

theorem consumeFIFO_of_nonpos (lots : List Lot) (m p : ℚ) (h : ¬ 0 < m) :
    consumeFIFO lots m p = (lots, 0) := by
  cases lots <;> rw [consumeFIFO] <;> simp [h]

theorem consumeFIFO_sum (lots : List Lot) (m p : ℚ) (h : m ≤ sumQty lots) :
    sumQty (consumeFIFO lots m p).1 = sumQty lots - max m 0 := by
  induction lots generalizing m with
  | nil =>
      rw [sumQty_nil] at h
      rw [consumeFIFO]
      have : ¬ 0 < m := by linarith
      simp [this, sumQty_nil, max_eq_right h]
  | cons lot rest ih =>
      by_cases hm : 0 < m
      · rw [consumeFIFO, if_pos hm]
        by_cases hq : lot.quantity > m
        · simp only [if_pos hq, sumQty_cons]
          rw [max_eq_left (le_of_lt hm)]
          ring
        · simp only [if_neg hq]
          push_neg at hq
          rw [sumQty_cons] at h
          have h2 : m - lot.quantity ≤ sumQty rest := by linarith
          have := ih (m - lot.quantity) h2
          rw [max_eq_left (by linarith)] at this
          simp only [sumQty_cons, this]
          rw [max_eq_left (le_of_lt hm)]
          ring
      · rw [consumeFIFO_of_nonpos _ _ _ hm]
        push_neg at hm
        simp [max_eq_right hm]

theorem consumeFIFO_gain (lots : List Lot) (m p : ℚ) (h : m ≤ sumQty lots) :
    (consumeFIFO lots m p).2 =
      max m 0 * p - (sumCost lots - sumCost (consumeFIFO lots m p).1) := by
  induction lots generalizing m with
  | nil =>
      rw [sumQty_nil] at h
      rw [consumeFIFO]
      have : ¬ 0 < m := by linarith
      simp [this, max_eq_right h]
  | cons lot rest ih =>
      by_cases hm : 0 < m
      · rw [consumeFIFO, if_pos hm]
        by_cases hq : lot.quantity > m
        · simp only [if_pos hq, sumCost_cons]
          rw [max_eq_left (le_of_lt hm)]
          simp [sumCost_cons]
          ring
        · simp only [if_neg hq]
          push_neg at hq
          rw [sumQty_cons] at h
          have h2 : m - lot.quantity ≤ sumQty rest := by linarith
          have := ih (m - lot.quantity) h2
          rw [max_eq_left (by linarith)] at this
          simp only [sumCost_cons, this]
          rw [max_eq_left (le_of_lt hm)]
          ring
      · rw [consumeFIFO_of_nonpos _ _ _ hm]
        push_neg at hm
        simp [max_eq_right hm]

theorem consumeFIFO_pos (lots : List Lot) (m p : ℚ) (h : ∀ l ∈ lots, 0 < l.quantity) :
    ∀ l ∈ (consumeFIFO lots m p).1, 0 < l.quantity := by
  induction lots generalizing m with
  | nil =>
      intro l hl
      rw [consumeFIFO] at hl
      by_cases hm : 0 < m <;> simp [hm] at hl
  | cons lot rest ih =>
      intro l hl
      by_cases hm : 0 < m
      · rw [consumeFIFO, if_pos hm] at hl
        by_cases hq : lot.quantity > m
        · simp only [if_pos hq] at hl
          rcases List.mem_cons.mp hl with h1 | h2
          · subst h1; simp; linarith
          · exact h l (List.mem_cons_of_mem _ h2)
        · simp only [if_neg hq] at hl
          exact ih (m - lot.quantity) (fun x hx => h x (List.mem_cons_of_mem _ hx)) l hl
      · rw [consumeFIFO_of_nonpos _ _ _ hm] at hl
        exact h l hl

theorem reduceHead_zero (lots : List Lot) : reduceHead 0 lots = lots := by
  cases lots with
  | nil => rfl
  | cons l rest => simp [reduceHead]

theorem consumeFIFO_shape (lots : List Lot) (m p : ℚ) (h0 : 0 ≤ m) (h : m ≤ sumQty lots) :
    ∃ i d, i ≤ lots.length ∧ 0 ≤ d ∧
      (consumeFIFO lots m p).1 = reduceHead d (lots.drop i) ∧
      (0 < d → ∃ l0 rest, lots.drop i = l0 :: rest ∧ d < l0.quantity) ∧
      (consumeFIFO lots m p).2 = m * p - (sumCost (lots.take i) + d * headPrice (lots.drop i)) := by
  induction lots generalizing m with
  | nil =>
      rw [sumQty_nil] at h
      have hm0 : m = 0 := le_antisymm h h0
      subst hm0
      refine ⟨0, 0, by simp, le_refl 0, ?_, ?_, ?_⟩
      · rw [consumeFIFO_of_nonpos _ _ _ (lt_irrefl 0)]
        simp [reduceHead_zero]
      · intro hd; exact absurd hd (lt_irrefl 0)
      · rw [consumeFIFO_of_nonpos _ _ _ (lt_irrefl 0)]
        simp [sumCost_nil, headPrice]
  | cons lot rest ih =>
      by_cases hm : 0 < m
      · by_cases hq : lot.quantity > m
        · refine ⟨0, m, by simp, h0, ?_, ?_, ?_⟩
          · rw [consumeFIFO, if_pos hm, if_pos hq]; rfl
          · intro _; exact ⟨lot, rest, rfl, hq⟩
          · rw [consumeFIFO, if_pos hm, if_pos hq]
            simp [sumCost_nil, headPrice]
        · push_neg at hq
          rw [sumQty_cons] at h
          have h2 : m - lot.quantity ≤ sumQty rest := by linarith
          have h02 : 0 ≤ m - lot.quantity := by linarith
          obtain ⟨i, d, hlen, hd0, hres, hbound, hgain⟩ := ih (m - lot.quantity) h02 h2
          refine ⟨i + 1, d, by simpa using Nat.succ_le_succ hlen, hd0, ?_, ?_, ?_⟩
          · rw [consumeFIFO, if_pos hm, if_neg (not_lt.mpr hq)]
            simpa using hres
          · intro hd
            simpa using hbound hd
          · rw [consumeFIFO, if_pos hm, if_neg (not_lt.mpr hq)]
            simp only [List.take_succ_cons, List.drop_succ_cons, sumCost_cons]
            simp only [hgain]
            ring
      · push_neg at hm
        have hm0 : m = 0 := le_antisymm hm h0
        subst hm0
        refine ⟨0, 0, by simp, le_refl 0, ?_, ?_, ?_⟩
        · rw [consumeFIFO_of_nonpos _ _ _ (lt_irrefl 0), List.drop_zero, reduceHead_zero]
        · intro hd; exact absurd hd (lt_irrefl 0)
        · rw [consumeFIFO_of_nonpos _ _ _ (lt_irrefl 0)]
          simp [sumCost_nil]

-- Lemmas transferring the FIFO results to the tail-consuming LIFO loop.

theorem consumeLIFO_nil (m p : ℚ) : consumeLIFO [] m p = ([], 0) := by
  by_cases hm : 0 < m <;> simp [consumeLIFO, consumeFIFO, hm]

theorem consumeLIFO_of_nonpos (lots : List Lot) (m p : ℚ) (h : ¬ 0 < m) :
    consumeLIFO lots m p = (lots, 0) := by
  simp [consumeLIFO, consumeFIFO_of_nonpos _ _ _ h]

theorem consumeLIFO_concat (xs : List Lot) (l : Lot) (m p : ℚ) (hm : 0 < m) :
    consumeLIFO (xs ++ [l]) m p =
      if l.quantity > m then
        (xs ++ [{ l with quantity := l.quantity - m }], m * p - m * l.price)
      else
        ((consumeLIFO xs (m - l.quantity) p).1,
          l.quantity * p - l.quantity * l.price + (consumeLIFO xs (m - l.quantity) p).2) := by
  by_cases hq : l.quantity > m
  · simp only [consumeLIFO, List.reverse_append, List.reverse_cons, List.reverse_nil,
      List.nil_append, List.singleton_append]
    rw [consumeFIFO, if_pos hm, if_pos hq]
    simp [hq]
  · simp only [consumeLIFO, List.reverse_append, List.reverse_cons, List.reverse_nil,
      List.nil_append, List.singleton_append]
    rw [consumeFIFO, if_pos hm, if_neg hq]
    simp [hq]

theorem consumeLIFO_sum (lots : List Lot) (m p : ℚ) (h : m ≤ sumQty lots) :
    sumQty (consumeLIFO lots m p).1 = sumQty lots - max m 0 := by
  have h2 : m ≤ sumQty lots.reverse := by rwa [sumQty_reverse]
  simp [consumeLIFO, sumQty_reverse, consumeFIFO_sum lots.reverse m p h2]

theorem consumeLIFO_gain (lots : List Lot) (m p : ℚ) (h : m ≤ sumQty lots) :
    (consumeLIFO lots m p).2 =
      max m 0 * p - (sumCost lots - sumCost (consumeLIFO lots m p).1) := by
  have h2 : m ≤ sumQty lots.reverse := by rwa [sumQty_reverse]
  have := consumeFIFO_gain lots.reverse m p h2
  rw [sumCost_reverse] at this
  simpa [consumeLIFO, sumCost_reverse] using this

theorem consumeLIFO_pos (lots : List Lot) (m p : ℚ) (h : ∀ l ∈ lots, 0 < l.quantity) :
    ∀ l ∈ (consumeLIFO lots m p).1, 0 < l.quantity := by
  intro l hl
  have h2 : ∀ x ∈ lots.reverse, 0 < x.quantity := by
    intro x hx; exact h x (List.mem_reverse.mp hx)
  simp only [consumeLIFO, List.mem_reverse] at hl
  exact consumeFIFO_pos lots.reverse m p h2 l hl

theorem consumeLIFO_shape (lots : List Lot) (m p : ℚ) (h0 : 0 ≤ m) (h : m ≤ sumQty lots) :
    ∃ k d, k ≤ lots.length ∧ 0 ≤ d ∧
      (consumeLIFO lots m p).1 = reduceLast d (lots.take k) ∧
      (0 < d → ∃ l0 pre, lots.take k = pre ++ [l0] ∧ d < l0.quantity) ∧
      (consumeLIFO lots m p).2 =
        m * p - (sumCost (lots.drop k) + d * lastPrice (lots.take k)) := by
  have h2 : m ≤ sumQty lots.reverse := by rwa [sumQty_reverse]
  obtain ⟨i, d, hlen, hd0, hres, hbound, hgain⟩ := consumeFIFO_shape lots.reverse m p h0 h2
  rw [List.length_reverse] at hlen
  refine ⟨lots.length - i, d, Nat.sub_le _ _, hd0, ?_, ?_, ?_⟩
  · have htk : (lots.take (lots.length - i)).reverse = lots.reverse.drop i := by
      rw [List.reverse_take]
      congr 1
      omega
    rw [reduceLast, htk]
    simp [consumeLIFO, hres]
  · intro hd
    obtain ⟨l0, rest, hsplit, hql⟩ := hbound hd
    have htk : (lots.take (lots.length - i)).reverse = lots.reverse.drop i := by
      rw [List.reverse_take]
      congr 1
      omega
    refine ⟨l0, rest.reverse, ?_, hql⟩
    have : lots.take (lots.length - i) = (lots.reverse.drop i).reverse := by
      rw [← htk, List.reverse_reverse]
    rw [this, hsplit]
    simp
  · have htk : (lots.take (lots.length - i)).reverse = lots.reverse.drop i := by
      rw [List.reverse_take]
      congr 1
      omega
    have hdrop : lots.reverse.take i = (lots.drop (lots.length - i)).reverse := by
      rw [List.take_reverse]
    have hcost : sumCost (lots.reverse.take i) = sumCost (lots.drop (lots.length - i)) := by
      rw [hdrop, sumCost_reverse]
    have hhp : headPrice (lots.reverse.drop i) = lastPrice (lots.take (lots.length - i)) := by
      rw [lastPrice, htk]
    simp only [consumeLIFO, hgain, hcost, hhp]

-- Fuel bounds for the two loops (termination in at most length + 1 steps).

theorem consumeFIFOFuel_spec (fuel : ℕ) (lots : List Lot) (m p : ℚ) (h : lots.length < fuel) :
    consumeFIFOFuel fuel lots m p = some (consumeFIFO lots m p) := by
  induction fuel generalizing lots m with
  | zero => omega
  | succ n ih =>
      by_cases hm : 0 < m
      · cases lots with
        | nil =>
            rw [consumeFIFOFuel, consumeFIFO]
            simp [hm]
        | cons lot rest =>
            by_cases hq : lot.quantity > m
            · rw [consumeFIFOFuel, consumeFIFO]
              simp [hm, hq]
            · rw [consumeFIFOFuel, consumeFIFO]
              have hrest : rest.length < n := by
                simp only [List.length_cons] at h; omega
              simp [hm, hq, ih rest (m - lot.quantity) hrest]
      · rw [consumeFIFOFuel.eq_def, consumeFIFO_of_nonpos _ _ _ hm]
        simp [hm]

theorem consumeLIFOFuel_spec (fuel : ℕ) (lots : List Lot) (m p : ℚ) (h : lots.length < fuel) :
    consumeLIFOFuel fuel lots m p = some (consumeLIFO lots m p) := by
  induction fuel generalizing lots m with
  | zero => omega
  | succ n ih =>
      by_cases hm : 0 < m
      · cases hl : lots.getLast? with
        | none =>
            have hnil : lots = [] := by
              cases lots with
              | nil => rfl
              | cons x xs =>
                  rw [List.getLast?_eq_getLast (x :: xs) (by simp)] at hl
                  simp at hl
            subst hnil
            rw [consumeLIFOFuel, consumeLIFO_nil]
            simp [hm]
        | some lot =>
            have hne : lots ≠ [] := by
              intro hcon; subst hcon; simp at hl
            have hlast : lots.getLast hne = lot := by
              rw [List.getLast?_eq_getLast _ hne] at hl
              exact Option.some_injective _ hl
            have hsplit : lots.dropLast ++ [lot] = lots := by
              rw [← hlast]; exact List.dropLast_append_getLast hne
            have hlen2 : lots.dropLast.length < n := by
              have := List.length_dropLast lots
              have hpos : 0 < lots.length := List.length_pos.mpr hne
              omega
            by_cases hq : lot.quantity > m
            · rw [consumeLIFOFuel]
              simp only [hm, if_pos, hl]
              rw [← hsplit, consumeLIFO_concat _ _ _ _ hm]
              simp [hq]
            · rw [consumeLIFOFuel]
              simp only [hm, if_pos, hl]
              rw [← hsplit, consumeLIFO_concat _ _ _ _ hm, if_neg hq]
              simp [hq, ih lots.dropLast (m - lot.quantity) hlen2]
      · rw [consumeLIFOFuel.eq_def, consumeLIFO_of_nonpos _ _ _ hm]
        simp [hm]

-- Projections of the sell step.

theorem processSell_eq (tx : Tx) (s : ProcState) (h : tx.quantity ≠ 0) :
    processSell tx s = some (sellResult tx s) := by
  simp [processSell, h]

theorem sellResult_buyLotsFifo (tx : Tx) (s : ProcState) :
    (sellResult tx s).buyLotsFifo = Function.update s.buyLotsFifo tx.asset
      (consumeFIFO (s.buyLotsFifo tx.asset) (sellMatchedFifo tx s) (sellSalePrice tx)).1 := rfl

theorem sellResult_buyLotsLifo (tx : Tx) (s : ProcState) :
    (sellResult tx s).buyLotsLifo = Function.update s.buyLotsLifo tx.asset
      (consumeLIFO (s.buyLotsLifo tx.asset) (sellMatchedLifo tx s) (sellSalePrice tx)).1 := rfl

theorem sellResult_avgTotals (tx : Tx) (s : ProcState) :
    (sellResult tx s).avgTotals = Function.update s.avgTotals tx.asset
      (max 0 ((s.avgTotals tx.asset).1 - tx.quantity),
        max 0 ((s.avgTotals tx.asset).2 -
          min tx.quantity (s.avgTotals tx.asset).1 * acbAvgCost s tx.asset)) := rfl

theorem sellResult_avgCostGains (tx : Tx) (s : ProcState) :
    (sellResult tx s).avgCostGains = addGain s.avgCostGains tx.asset tx.year
      (tx.quantity * (sellSalePrice tx - acbAvgCost s tx.asset)) := rfl

theorem sellResult_fifoGains (tx : Tx) (s : ProcState) :
    (sellResult tx s).fifoGains =
      if 0 < tx.quantity - sellMatchedFifo tx s then
        addGain (addGain s.fifoGains tx.asset tx.year
            (consumeFIFO (s.buyLotsFifo tx.asset) (sellMatchedFifo tx s) (sellSalePrice tx)).2)
          tx.asset tx.year ((tx.quantity - sellMatchedFifo tx s) * sellSalePrice tx)
      else
        addGain s.fifoGains tx.asset tx.year
          (consumeFIFO (s.buyLotsFifo tx.asset) (sellMatchedFifo tx s) (sellSalePrice tx)).2 := rfl

theorem sellResult_lifoGains (tx : Tx) (s : ProcState) :
    (sellResult tx s).lifoGains =
      if 0 < tx.quantity - sellMatchedLifo tx s then
        addGain (addGain s.lifoGains tx.asset tx.year
            (consumeLIFO (s.buyLotsLifo tx.asset) (sellMatchedLifo tx s) (sellSalePrice tx)).2)
          tx.asset tx.year ((tx.quantity - sellMatchedLifo tx s) * sellSalePrice tx)
      else
        addGain s.lifoGains tx.asset tx.year
          (consumeLIFO (s.buyLotsLifo tx.asset) (sellMatchedLifo tx s) (sellSalePrice tx)).2 := rfl

theorem sellResult_enhancedTxs (tx : Tx) (s : ProcState) :
    (sellResult tx s).enhancedTxs =
      if 0 < tx.quantity - sellMatchedFifo tx s then
        s.enhancedTxs ++ [⟨tx.ts, tx.asset, tx.txnType, tx.quantity, sellMatchedFifo tx s,
          tx.quantity - sellMatchedFifo tx s, sellSalePrice tx,
          (tx.quantity - sellMatchedFifo tx s) * sellSalePrice tx, statusEnhanced⟩]
      else s.enhancedTxs := rfl

theorem acbDelta_eq (tx : Tx) (s : ProcState) (h : tx.quantity ≠ 0) :
    acbDelta tx s = tx.quantity * (sellSalePrice tx - acbAvgCost s tx.asset) := by
  simp [acbDelta, processSell_eq tx s h, sellResult_avgCostGains, addGain_self, totalY_addYear]

theorem fifoDelta_eq (tx : Tx) (s : ProcState) (h : tx.quantity ≠ 0) :
    fifoDelta tx s =
      (consumeFIFO (s.buyLotsFifo tx.asset) (sellMatchedFifo tx s) (sellSalePrice tx)).2 +
        (if 0 < tx.quantity - sellMatchedFifo tx s then
          (tx.quantity - sellMatchedFifo tx s) * sellSalePrice tx else 0) := by
  by_cases he : 0 < tx.quantity - sellMatchedFifo tx s
  · simp [fifoDelta, processSell_eq tx s h, sellResult_fifoGains, he, addGain_self, totalY_addYear]
    ring
  · simp [fifoDelta, processSell_eq tx s h, sellResult_fifoGains, he, addGain_self, totalY_addYear]

theorem lifoDelta_eq (tx : Tx) (s : ProcState) (h : tx.quantity ≠ 0) :
    lifoDelta tx s =
      (consumeLIFO (s.buyLotsLifo tx.asset) (sellMatchedLifo tx s) (sellSalePrice tx)).2 +
        (if 0 < tx.quantity - sellMatchedLifo tx s then
          (tx.quantity - sellMatchedLifo tx s) * sellSalePrice tx else 0) := by
  by_cases he : 0 < tx.quantity - sellMatchedLifo tx s
  · simp [lifoDelta, processSell_eq tx s h, sellResult_lifoGains, he, addGain_self, totalY_addYear]
    ring
  · simp [lifoDelta, processSell_eq tx s h, sellResult_lifoGains, he, addGain_self, totalY_addYear]

theorem enhancedAfterSell_eq (tx : Tx) (s : ProcState) (h : tx.quantity ≠ 0) :
    enhancedAfterSell tx s =
      if 0 < tx.quantity - sellMatchedFifo tx s then
        s.enhancedTxs ++ [⟨tx.ts, tx.asset, tx.txnType, tx.quantity, sellMatchedFifo tx s,
          tx.quantity - sellMatchedFifo tx s, sellSalePrice tx,
          (tx.quantity - sellMatchedFifo tx s) * sellSalePrice tx, statusEnhanced⟩]
      else s.enhancedTxs := by
  simp [enhancedAfterSell, processSell_eq tx s h, sellResult_enhancedTxs]

theorem avgTotalsAfterSell_eq (tx : Tx) (s : ProcState) (h : tx.quantity ≠ 0) :
    avgTotalsAfterSell tx s =
      (max 0 ((s.avgTotals tx.asset).1 - tx.quantity),
        max 0 ((s.avgTotals tx.asset).2 -
          min tx.quantity (s.avgTotals tx.asset).1 * acbAvgCost s tx.asset)) := by
  simp [avgTotalsAfterSell, processSell_eq tx s h, sellResult_avgTotals]

-- Row dispatch and stream accounting.

theorem stringBuyNeSell : (("BUY" : String) = "SELL") = False := by decide

theorem processRow_cases (s : ProcState) (tx : Tx) (s2 : ProcState)
    (h : processRow s tx = some s2) :
    (normType tx.txnType = "BUY" ∧ s2 = processBuy tx s) ∨
    (normType tx.txnType ≠ "BUY" ∧ normType tx.txnType = "SELL" ∧ tx.quantity ≠ 0 ∧
      s2 = sellResult tx s) ∨
    (normType tx.txnType ≠ "BUY" ∧ normType tx.txnType ≠ "SELL" ∧ s2 = s) := by
  by_cases hb : normType tx.txnType = "BUY"
  · left
    refine ⟨hb, ?_⟩
    simp [processRow, hb] at h
    exact h.symm
  · by_cases hs : normType tx.txnType = "SELL"
    · right; left
      simp [processRow, hb, hs] at h
      by_cases hq : tx.quantity = 0
      · simp [processSell, hq] at h
      · rw [processSell_eq tx s hq] at h
        exact ⟨hb, hs, hq, (Option.some_injective _ h).symm⟩
    · right; right
      simp [processRow, hb, hs] at h
      exact ⟨hb, hs, h.symm⟩

theorem totalBoughtQty_cons (tx : Tx) (rest : List Tx) (a : String) :
    totalBoughtQty (tx :: rest) a =
      (if normType tx.txnType = "BUY" ∧ tx.asset = a then tx.quantity else 0) +
        totalBoughtQty rest a := by
  by_cases h : normType tx.txnType = "BUY" ∧ tx.asset = a
  · have hb : (normType tx.txnType == "BUY" && (tx.asset == a)) = true := by
      simp [h.1, h.2]
    simp [totalBoughtQty, List.filter_cons, hb, h]
  · have hb : (normType tx.txnType == "BUY" && (tx.asset == a)) = false := by
      rcases not_and_or.mp h with h1 | h1 <;> simp [h1]
    simp [totalBoughtQty, List.filter_cons, hb, h]

theorem totalSoldQty_cons (tx : Tx) (rest : List Tx) (a : String) :
    totalSoldQty (tx :: rest) a =
      (if normType tx.txnType = "SELL" ∧ tx.asset = a then tx.quantity else 0) +
        totalSoldQty rest a := by
  by_cases h : normType tx.txnType = "SELL" ∧ tx.asset = a
  · have hb : (normType tx.txnType == "SELL" && (tx.asset == a)) = true := by
      simp [h.1, h.2]
    simp [totalSoldQty, List.filter_cons, hb, h]
  · have hb : (normType tx.txnType == "SELL" && (tx.asset == a)) = false := by
      rcases not_and_or.mp h with h1 | h1 <;> simp [h1]
    simp [totalSoldQty, List.filter_cons, hb, h]

theorem sumQty_zero_of_pos (lots : List Lot) (hpos : ∀ l ∈ lots, 0 < l.quantity)
    (h : sumQty lots = 0) : lots = [] := by
  cases lots with
  | nil => rfl
  | cons l rest =>
      exfalso
      have h1 : 0 < l.quantity := hpos l (List.mem_cons_self l rest)
      have h2 : 0 ≤ sumQty rest :=
        sumQty_nonneg rest (fun x hx => le_of_lt (hpos x (List.mem_cons_of_mem l hx)))
      rw [sumQty_cons] at h
      linarith

theorem processRow_assetInv (a : String) (s s2 : ProcState) (tx : Tx) (net : ℚ)
    (h : processRow s tx = some s2) (hq : 0 < tx.quantity) (hinv : AssetInv a s net) :
    AssetInv a s2
      (net + (if normType tx.txnType = "BUY" ∧ tx.asset = a then tx.quantity else 0)
        - (if normType tx.txnType = "SELL" ∧ tx.asset = a then tx.quantity else 0)) := by
  obtain ⟨hF, hL, hsum, hgain, hnet⟩ := hinv
  rcases processRow_cases s tx s2 h with ⟨hb, rfl⟩ | ⟨hb, hs, hq0, rfl⟩ | ⟨hb, hs, rfl⟩
  · -- BUY row
    have hds : ¬ (normType tx.txnType = "SELL" ∧ tx.asset = a) := by
      intro hcon
      rw [hb] at hcon
      exact absurd hcon.1 (by decide)
    by_cases ha : tx.asset = a
    · subst ha
      have hnete : net + (if normType tx.txnType = "BUY" ∧ tx.asset = tx.asset
            then tx.quantity else 0)
          - (if normType tx.txnType = "SELL" ∧ tx.asset = tx.asset then tx.quantity else 0)
          = net + tx.quantity := by
        rw [if_pos ⟨hb, rfl⟩, if_neg hds]; ring
      rw [hnete]
      refine ⟨?_, ?_, ?_, ?_, ?_⟩
      · intro l hl
        simp only [processBuy, Function.update_same] at hl
        rcases List.mem_append.mp hl with h1 | h1
        · exact hF l h1
        · rw [List.mem_singleton.mp h1]; exact hq
      · intro l hl
        simp only [processBuy, Function.update_same] at hl
        rcases List.mem_append.mp hl with h1 | h1
        · exact hL l h1
        · rw [List.mem_singleton.mp h1]; exact hq
      · simp only [processBuy, Function.update_same, sumQty_append, sumQty_cons, sumQty_nil]
        linarith
      · simp only [processBuy, Function.update_same, sumCost_append, sumCost_cons, sumCost_nil]
        linarith
      · intro hnr
        simp only [processBuy] at hnr ⊢
        simp only [Function.update_same, sumQty_append, sumQty_cons, sumQty_nil]
        have := hnet hnr
        linarith
    · have ha2 : a ≠ tx.asset := fun hh => ha hh.symm
      have hnete : net + (if normType tx.txnType = "BUY" ∧ tx.asset = a then tx.quantity else 0)
          - (if normType tx.txnType = "SELL" ∧ tx.asset = a then tx.quantity else 0) = net := by
        rw [if_neg (fun hc => ha hc.2), if_neg (fun hc => ha hc.2)]; ring
      rw [hnete]
      refine ⟨?_, ?_, ?_, ?_, ?_⟩ <;>
        simp only [processBuy, Function.update_noteq ha2]
      · exact hF
      · exact hL
      · exact hsum
      · exact hgain
      · exact hnet
  · -- SELL row
    have hdb : ¬ (normType tx.txnType = "BUY" ∧ tx.asset = a) := fun hcon => hb hcon.1
    by_cases ha : tx.asset = a
    · subst ha
      have hnete : net + (if normType tx.txnType = "BUY" ∧ tx.asset = tx.asset
            then tx.quantity else 0)
          - (if normType tx.txnType = "SELL" ∧ tx.asset = tx.asset then tx.quantity else 0)
          = net - tx.quantity := by
        rw [if_neg hdb, if_pos ⟨hs, rfl⟩]; ring
      rw [hnete]
      have hFn : 0 ≤ sumQty (s.buyLotsFifo tx.asset) :=
        sumQty_nonneg _ (fun l hl => le_of_lt (hF l hl))
      have hLn : 0 ≤ sumQty (s.buyLotsLifo tx.asset) :=
        sumQty_nonneg _ (fun l hl => le_of_lt (hL l hl))
      have hmm : sellMatchedLifo tx s = sellMatchedFifo tx s := by
        simp [sellMatchedFifo, sellMatchedLifo, hsum]
      have hm0 : 0 ≤ sellMatchedFifo tx s := le_min (le_of_lt hq) hFn
      have hmleF : sellMatchedFifo tx s ≤ sumQty (s.buyLotsFifo tx.asset) := min_le_right _ _
      have hmleL : sellMatchedLifo tx s ≤ sumQty (s.buyLotsLifo tx.asset) := min_le_right _ _
      have hmq : sellMatchedFifo tx s ≤ tx.quantity := min_le_left _ _
      have hmax : max (sellMatchedFifo tx s) 0 = sellMatchedFifo tx s := max_eq_left hm0
      have hsum2 := consumeFIFO_sum (s.buyLotsFifo tx.asset) (sellMatchedFifo tx s)
        (sellSalePrice tx) hmleF
      have hsum3 := consumeLIFO_sum (s.buyLotsLifo tx.asset) (sellMatchedLifo tx s)
        (sellSalePrice tx) hmleL
      have hgF := consumeFIFO_gain (s.buyLotsFifo tx.asset) (sellMatchedFifo tx s)
        (sellSalePrice tx) hmleF
      have hgL := consumeLIFO_gain (s.buyLotsLifo tx.asset) (sellMatchedLifo tx s)
        (sellSalePrice tx) hmleL
      have eF : totalY ((sellResult tx s).fifoGains tx.asset) =
          totalY (s.fifoGains tx.asset) +
            (consumeFIFO (s.buyLotsFifo tx.asset) (sellMatchedFifo tx s) (sellSalePrice tx)).2 +
            (if 0 < tx.quantity - sellMatchedFifo tx s then
              (tx.quantity - sellMatchedFifo tx s) * sellSalePrice tx else 0) := by
        rw [sellResult_fifoGains]
        by_cases hc : 0 < tx.quantity - sellMatchedFifo tx s <;>
          simp [hc, addGain_self, totalY_addYear]
      have eL : totalY ((sellResult tx s).lifoGains tx.asset) =
          totalY (s.lifoGains tx.asset) +
            (consumeLIFO (s.buyLotsLifo tx.asset) (sellMatchedLifo tx s) (sellSalePrice tx)).2 +
            (if 0 < tx.quantity - sellMatchedLifo tx s then
              (tx.quantity - sellMatchedLifo tx s) * sellSalePrice tx else 0) := by
        rw [sellResult_lifoGains]
        by_cases hc : 0 < tx.quantity - sellMatchedLifo tx s <;>
          simp [hc, addGain_self, totalY_addYear]
      refine ⟨?_, ?_, ?_, ?_, ?_⟩
      · intro l hl
        rw [sellResult_buyLotsFifo] at hl
        simp only [Function.update_same] at hl
        exact consumeFIFO_pos _ _ _ hF l hl
      · intro l hl
        rw [sellResult_buyLotsLifo] at hl
        simp only [Function.update_same] at hl
        exact consumeLIFO_pos _ _ _ hL l hl
      · rw [sellResult_buyLotsFifo, sellResult_buyLotsLifo]
        simp only [Function.update_same]
        rw [hsum2, hsum3, hmm, hsum]
      · rw [sellResult_buyLotsFifo, sellResult_buyLotsLifo]
        simp only [Function.update_same]
        rw [eF, eL, hgF, hgL, hmm, hmax]
        linarith
      · intro hnr
        rw [sellResult_enhancedTxs] at hnr
        by_cases hc : 0 < tx.quantity - sellMatchedFifo tx s
        · exfalso
          rw [if_pos hc] at hnr
          exact hnr _ (List.mem_append_right _ (List.mem_singleton_self _)) rfl
        · rw [if_neg hc] at hnr
          have hmeq : sellMatchedFifo tx s = tx.quantity := by
            push_neg at hc
            linarith
          rw [sellResult_buyLotsFifo]
          simp only [Function.update_same]
          rw [hsum2, hmax, hmeq, hnet hnr]
    · have ha2 : a ≠ tx.asset := fun hh => ha hh.symm
      have hnete : net + (if normType tx.txnType = "BUY" ∧ tx.asset = a then tx.quantity else 0)
          - (if normType tx.txnType = "SELL" ∧ tx.asset = a then tx.quantity else 0) = net := by
        rw [if_neg (fun hc => ha hc.2), if_neg (fun hc => ha hc.2)]; ring
      rw [hnete]
      have egF : (sellResult tx s).fifoGains a = s.fifoGains a := by
        rw [sellResult_fifoGains]
        by_cases hc : 0 < tx.quantity - sellMatchedFifo tx s <;>
          simp [hc, addGain_other _ _ _ _ _ ha2]
      have egL : (sellResult tx s).lifoGains a = s.lifoGains a := by
        rw [sellResult_lifoGains]
        by_cases hc : 0 < tx.quantity - sellMatchedLifo tx s <;>
          simp [hc, addGain_other _ _ _ _ _ ha2]
      refine ⟨?_, ?_, ?_, ?_, ?_⟩
      · intro l hl
        rw [sellResult_buyLotsFifo] at hl
        rw [Function.update_noteq ha2] at hl
        exact hF l hl
      · intro l hl
        rw [sellResult_buyLotsLifo] at hl
        rw [Function.update_noteq ha2] at hl
        exact hL l hl
      · rw [sellResult_buyLotsFifo, sellResult_buyLotsLifo, Function.update_noteq ha2,
          Function.update_noteq ha2]
        exact hsum
      · rw [sellResult_buyLotsFifo, sellResult_buyLotsLifo, Function.update_noteq ha2,
          Function.update_noteq ha2, egF, egL]
        exact hgain
      · intro hnr
        rw [sellResult_buyLotsFifo, Function.update_noteq ha2]
        apply hnet
        intro r hr
        apply hnr
        rw [sellResult_enhancedTxs]
        by_cases hc : 0 < tx.quantity - sellMatchedFifo tx s
        · rw [if_pos hc]; exact List.mem_append_left _ hr
        · rw [if_neg hc]; exact hr
  · -- unrecognised row: silently skipped
    have hnete : net + (if normType tx.txnType = "BUY" ∧ tx.asset = a then tx.quantity else 0)
        - (if normType tx.txnType = "SELL" ∧ tx.asset = a then tx.quantity else 0) = net := by
      rw [if_neg (fun hc => hb hc.1), if_neg (fun hc => hs hc.1)]; ring
    rw [hnete]
    exact ⟨hF, hL, hsum, hgain, hnet⟩

theorem runTxs_assetInv (a : String) (txs : List Tx) (s0 s : ProcState) (net : ℚ)
    (hrun : runTxs txs s0 = some s) (hpos : ∀ tx ∈ txs, 0 < tx.quantity)
    (hinv : AssetInv a s0 net) :
    AssetInv a s (net + totalBoughtQty txs a - totalSoldQty txs a) := by
  induction txs generalizing s0 net with
  | nil =>
      simp only [runTxs, Option.some.injEq] at hrun
      subst hrun
      simpa [totalBoughtQty, totalSoldQty] using hinv
  | cons tx rest ih =>
      rw [runTxs] at hrun
      cases hpr : processRow s0 tx with
      | none => rw [hpr] at hrun; simp at hrun
      | some s1 =>
          rw [hpr] at hrun
          have hstep := processRow_assetInv a s0 s1 tx net hpr
            (hpos tx (List.mem_cons_self _ _)) hinv
          have hrec := ih s1 _ hrun (fun t ht => hpos t (List.mem_cons_of_mem _ ht)) hstep
          have heq : net + totalBoughtQty (tx :: rest) a - totalSoldQty (tx :: rest) a =
              (net + (if normType tx.txnType = "BUY" ∧ tx.asset = a then tx.quantity else 0)
                - (if normType tx.txnType = "SELL" ∧ tx.asset = a then tx.quantity else 0))
              + totalBoughtQty rest a - totalSoldQty rest a := by
            rw [totalBoughtQty_cons, totalSoldQty_cons]; ring
          rw [heq]
          exact hrec

theorem runTxs_availEq (txs : List Tx) (s0 s : ProcState)
    (hrun : runTxs txs s0 = some s)
    (hinv : ∀ b, sumQty (s0.buyLotsFifo b) = sumQty (s0.buyLotsLifo b)) :
    ∀ b, sumQty (s.buyLotsFifo b) = sumQty (s.buyLotsLifo b) := by
  induction txs generalizing s0 with
  | nil =>
      simp only [runTxs, Option.some.injEq] at hrun
      subst hrun
      exact hinv
  | cons tx rest ih =>
      rw [runTxs] at hrun
      cases hpr : processRow s0 tx with
      | none => rw [hpr] at hrun; simp at hrun
      | some s1 =>
          rw [hpr] at hrun
          apply ih s1 hrun
          intro b
          rcases processRow_cases s0 tx s1 hpr with ⟨hb, rfl⟩ | ⟨hb, hs, hq0, rfl⟩ | ⟨hb, hs, rfl⟩
          · by_cases ha : tx.asset = b
            · subst ha
              simp [processBuy, Function.update_same, sumQty_append, sumQty_cons, sumQty_nil,
                hinv tx.asset]
            · have ha2 : b ≠ tx.asset := fun hh => ha hh.symm
              simp [processBuy, Function.update_noteq ha2, hinv b]
          · by_cases ha : tx.asset = b
            · subst ha
              rw [sellResult_buyLotsFifo, sellResult_buyLotsLifo]
              simp only [Function.update_same]
              have hmm : sellMatchedLifo tx s0 = sellMatchedFifo tx s0 := by
                simp [sellMatchedFifo, sellMatchedLifo, hinv tx.asset]
              have h1 : sellMatchedFifo tx s0 ≤ sumQty (s0.buyLotsFifo tx.asset) :=
                min_le_right _ _
              have h2 : sellMatchedLifo tx s0 ≤ sumQty (s0.buyLotsLifo tx.asset) :=
                min_le_right _ _
              rw [consumeFIFO_sum _ _ _ h1, consumeLIFO_sum _ _ _ h2, hmm, hinv tx.asset]
            · have ha2 : b ≠ tx.asset := fun hh => ha hh.symm
              rw [sellResult_buyLotsFifo, sellResult_buyLotsLifo,
                Function.update_noteq ha2, Function.update_noteq ha2]
              exact hinv b
          · exact hinv b

theorem runTxs_avgNonneg (txs : List Tx) (s0 s : ProcState)
    (hrun : runTxs txs s0 = some s)
    (hpos : ∀ tx ∈ txs, 0 ≤ tx.quantity ∧ 0 ≤ tx.totalValue)
    (hinv : ∀ b, 0 ≤ (s0.avgTotals b).1 ∧ 0 ≤ (s0.avgTotals b).2) :
    ∀ b, 0 ≤ (s.avgTotals b).1 ∧ 0 ≤ (s.avgTotals b).2 := by
  induction txs generalizing s0 with
  | nil =>
      simp only [runTxs, Option.some.injEq] at hrun
      subst hrun
      exact hinv
  | cons tx rest ih =>
      rw [runTxs] at hrun
      cases hpr : processRow s0 tx with
      | none => rw [hpr] at hrun; simp at hrun
      | some s1 =>
          rw [hpr] at hrun
          apply ih s1 hrun (fun t ht => hpos t (List.mem_cons_of_mem _ ht))
          intro b
          rcases processRow_cases s0 tx s1 hpr with ⟨hb, rfl⟩ | ⟨hb, hs, hq0, rfl⟩ | ⟨hb, hs, rfl⟩
          · by_cases ha : tx.asset = b
            · subst ha
              have hqt := hpos tx (List.mem_cons_self _ _)
              have := hinv tx.asset
              simp only [processBuy, Function.update_same]
              constructor <;> [linarith [this.1, hqt.1]; linarith [this.2, hqt.2]]
            · have ha2 : b ≠ tx.asset := fun hh => ha hh.symm
              simp only [processBuy, Function.update_noteq ha2]
              exact hinv b
          · by_cases ha : tx.asset = b
            · subst ha
              rw [sellResult_avgTotals]
              simp only [Function.update_same]
              exact ⟨le_max_left _ _, le_max_left _ _⟩
            · have ha2 : b ≠ tx.asset := fun hh => ha hh.symm
              rw [sellResult_avgTotals, Function.update_noteq ha2]
              exact hinv b
          · exact hinv b

-- Report builder lemmas.

theorem lookupA_eq_nil_of_not_mem (led : Ledger) (a : String) (h : a ∉ ledgerAssets led) :
    lookupA led a = [] := by
  induction led with
  | nil => rfl
  | cons e rest ih =>
      obtain ⟨k, v⟩ := e
      simp only [ledgerAssets, List.map_cons, List.mem_cons] at h
      push_neg at h
      have hk : (a == k) = false := beq_eq_false_iff_ne.mpr h.1
      simp only [lookupA, List.lookup_cons, hk]
      exact ih h.2

theorem mem_ledgerAssets_of_yearKeys (led : Ledger) (a : String) (y : Int)
    (h : y ∈ yearKeys (lookupA led a)) : a ∈ ledgerAssets led := by
  by_contra hc
  rw [lookupA_eq_nil_of_not_mem led a hc] at h
  simp [yearKeys] at h

theorem mem_reportAssets (f l acb : Ledger) (a : String) :
    a ∈ reportAssets f l acb ↔
      (a ∈ ledgerAssets f ∨ a ∈ ledgerAssets l ∨ a ∈ ledgerAssets acb) := by
  simp [reportAssets, List.mem_mergeSort, List.mem_dedup, List.mem_append, or_assoc]

theorem mem_reportYears (f l acb : Ledger) (a : String) (y : Int) :
    y ∈ reportYears f l acb a ↔
      (y ∈ yearKeys (lookupA f a) ∨ y ∈ yearKeys (lookupA l a) ∨
        y ∈ yearKeys (lookupA acb a)) := by
  simp [reportYears, List.mem_mergeSort, List.mem_dedup, List.mem_append, or_assoc]

theorem nodup_reportAssets (f l acb : Ledger) : (reportAssets f l acb).Nodup :=
  ((List.mergeSort_perm _ _).nodup_iff).mpr (List.nodup_dedup _)

theorem nodup_reportYears (f l acb : Ledger) (a : String) : (reportYears f l acb a).Nodup :=
  ((List.mergeSort_perm _ _).nodup_iff).mpr (List.nodup_dedup _)

theorem nodup_pairList (as : List String) (ys : String → List Int)
    (ha : as.Nodup) (hy : ∀ a, (ys a).Nodup) :
    (as.flatMap (fun a => (ys a).map (fun y => (a, y)))).Nodup := by
  induction as with
  | nil => simp
  | cons a rest ih =>
      rw [List.flatMap_cons]
      obtain ⟨hna, hrest⟩ := List.nodup_cons.mp ha
      apply List.Nodup.append
      · exact (hy a).map (fun y1 y2 hh => (Prod.ext_iff.mp hh).2)
      · exact ih hrest
      · rw [List.disjoint_left]
        intro p hp1 hp2
        rw [List.mem_map] at hp1
        obtain ⟨y, hy1, hpy⟩ := hp1
        rw [List.mem_flatMap] at hp2
        obtain ⟨b, hb, hp2b⟩ := hp2
        rw [List.mem_map] at hp2b
        obtain ⟨y2, hy2, hpy2⟩ := hp2b
        rw [← hpy] at hpy2
        have : b = a := (Prod.ext_iff.mp hpy2).1
        subst this
        exact hna hb

theorem rowLE_trans (r s t : ReportRow) (h1 : rowLE r s = true) (h2 : rowLE s t = true) :
    rowLE r t = true := by
  simp only [rowLE, decide_eq_true_eq] at h1 h2 ⊢
  rcases h1 with h1 | ⟨h1e, h1a⟩ <;> rcases h2 with h2 | ⟨h2e, h2a⟩
  · left; omega
  · left; omega
  · left; omega
  · right; exact ⟨h1e.trans h2e, le_trans h1a h2a⟩

theorem rowLE_total (r s : ReportRow) : (rowLE r s || rowLE s r) = true := by
  simp only [rowLE, Bool.or_eq_true, decide_eq_true_eq]
  rcases lt_trichotomy r.year s.year with h | h | h
  · right; left; exact h
  · rcases le_total r.asset s.asset with ha | ha
    · left; right; exact ⟨h, ha⟩
    · right; right; exact ⟨h.symm, ha⟩
  · left; left; exact h

theorem generateReportRows_map_pairs (f l acb : Ledger) :
    (generateReportRows f l acb).map (fun r => (r.asset, r.year)) =
      (reportAssets f l acb).flatMap
        (fun a => (reportYears f l acb a).map (fun y => (a, y))) := by
  simp only [generateReportRows, List.map_flatMap, List.map_map]
  rfl

theorem mem_generateReport (f l acb : Ledger) (r : ReportRow) :
    r ∈ generateReport f l acb ↔
      ∃ a ∈ reportAssets f l acb, ∃ y ∈ reportYears f l acb a,
        r = ⟨y, a, getY (lookupA l a) y, getY (lookupA f a) y, getY (lookupA acb a) y⟩ := by
  simp only [generateReport, List.mem_mergeSort, generateReportRows, List.mem_flatMap,
    List.mem_map]
  constructor
  · rintro ⟨a, ha, y, hyy, rfl⟩
    exact ⟨a, ha, y, hyy, rfl⟩
  · rintro ⟨a, ha, y, hyy, rfl⟩
    exact ⟨a, ha, y, hyy, rfl⟩

-- Claim theorems.

/-- Claim C1. The claim states that a SELL with declared quantity 0 is
processed as a guarded no-op. The code instead computes
`sale_price = total_value / quantity` unguarded, raising
`ZeroDivisionError` (modelled by `none`): processing the zero-quantity
sell, and any run containing it, aborts rather than being a no-op. -/
theorem C1_zero_quantity_sell_raises :
    processSell c1tx initState = none ∧ runTxs c1stream initState = none :=
  ⟨rfl, rfl⟩

/-- Claim C3: for every inventory of (non-negatively sized) lots and
every sell quantity `q ≥ 0`, the FIFO and LIFO loops each remove exactly
`min q totalAvailable` units; the resulting inventory is the original
one with a consumed prefix (FIFO) or suffix (LIFO) removed and the
boundary lot, when split, strictly positive (so no lot is left at
exactly 0); the gain accumulated by the loop is matched × salePrice
minus the cost basis of the consumed lots, so the excess of `q` over the
available total carries no cost basis. -/
theorem C3_consume_min_available (lots : List Lot) (q p : ℚ)
    (hpos : ∀ l ∈ lots, 0 ≤ l.quantity) (hq : 0 ≤ q) :
    (sumQty (consumeFIFO lots (min q (sumQty lots)) p).1
        = sumQty lots - min q (sumQty lots)) ∧
    (∃ i d, i ≤ lots.length ∧ 0 ≤ d ∧
      (consumeFIFO lots (min q (sumQty lots)) p).1 = reduceHead d (lots.drop i) ∧
      (0 < d → ∃ l0 rest2, lots.drop i = l0 :: rest2 ∧ d < l0.quantity) ∧
      (consumeFIFO lots (min q (sumQty lots)) p).2 =
        min q (sumQty lots) * p - (sumCost (lots.take i) + d * headPrice (lots.drop i))) ∧
    (sumQty (consumeLIFO lots (min q (sumQty lots)) p).1
        = sumQty lots - min q (sumQty lots)) ∧
    (∃ k d, k ≤ lots.length ∧ 0 ≤ d ∧
      (consumeLIFO lots (min q (sumQty lots)) p).1 = reduceLast d (lots.take k) ∧
      (0 < d → ∃ l0 pre, lots.take k = pre ++ [l0] ∧ d < l0.quantity) ∧
      (consumeLIFO lots (min q (sumQty lots)) p).2 =
        min q (sumQty lots) * p - (sumCost (lots.drop k) + d * lastPrice (lots.take k))) := by
  have hm0 : 0 ≤ min q (sumQty lots) := le_min hq (sumQty_nonneg lots hpos)
  have hmle : min q (sumQty lots) ≤ sumQty lots := min_le_right _ _
  refine ⟨?_, ?_, ?_, ?_⟩
  · rw [consumeFIFO_sum lots _ p hmle, max_eq_left hm0]
  · exact consumeFIFO_shape lots _ p hm0 hmle
  · rw [consumeLIFO_sum lots _ p hmle, max_eq_left hm0]
  · exact consumeLIFO_shape lots _ p hm0 hmle

/-- Witness for C3 on a concrete two-lot inventory with an
over-available sell quantity. -/
theorem C3_consume_min_available_witness :
    (∀ l ∈ c3lots, 0 ≤ l.quantity) ∧ (0 : ℚ) ≤ 6 ∧
    ((sumQty (consumeFIFO c3lots (min 6 (sumQty c3lots)) 30).1
        = sumQty c3lots - min 6 (sumQty c3lots)) ∧
    (∃ i d, i ≤ c3lots.length ∧ 0 ≤ d ∧
      (consumeFIFO c3lots (min 6 (sumQty c3lots)) 30).1 = reduceHead d (c3lots.drop i) ∧
      (0 < d → ∃ l0 rest2, c3lots.drop i = l0 :: rest2 ∧ d < l0.quantity) ∧
      (consumeFIFO c3lots (min 6 (sumQty c3lots)) 30).2 =
        min 6 (sumQty c3lots) * 30 -
          (sumCost (c3lots.take i) + d * headPrice (c3lots.drop i))) ∧
    (sumQty (consumeLIFO c3lots (min 6 (sumQty c3lots)) 30).1
        = sumQty c3lots - min 6 (sumQty c3lots)) ∧
    (∃ k d, k ≤ c3lots.length ∧ 0 ≤ d ∧
      (consumeLIFO c3lots (min 6 (sumQty c3lots)) 30).1 = reduceLast d (c3lots.take k) ∧
      (0 < d → ∃ l0 pre, c3lots.take k = pre ++ [l0] ∧ d < l0.quantity) ∧
      (consumeLIFO c3lots (min 6 (sumQty c3lots)) 30).2 =
        min 6 (sumQty c3lots) * 30 -
          (sumCost (c3lots.drop k) + d * lastPrice (c3lots.take k)))) :=
  ⟨by norm_num [c3lots], by norm_num,
    C3_consume_min_available c3lots 6 30 (by norm_num [c3lots]) (by norm_num)⟩

/-- Claim C4: a SELL of quantity `q ≠ 0` at sale price `p` against
average-cost state `(Q, C)` adds gain `q × (p − a)` with
`a = C / Q` when `Q > 0` and `a = 0` otherwise (computed before any
mutation), then sets the cumulative quantity to `max 0 (Q − q)` and the
cumulative cost to `max 0 (C − min q Q × a)`. -/
theorem C4_acb_sell (s : ProcState) (tx : Tx) (h : tx.quantity ≠ 0) :
    (processSell tx s).isSome = true ∧
    avgTotalsAfterSell tx s =
      (max 0 ((s.avgTotals tx.asset).1 - tx.quantity),
        max 0 ((s.avgTotals tx.asset).2 -
          min tx.quantity (s.avgTotals tx.asset).1 * acbAvgCost s tx.asset)) ∧
    acbDelta tx s = tx.quantity * (sellSalePrice tx - acbAvgCost s tx.asset) :=
  ⟨by simp [processSell_eq tx s h], avgTotalsAfterSell_eq tx s h, acbDelta_eq tx s h⟩

/-- Witness for C4: the design-document scenario (10 bought at 100,
4 sold at 150). -/
theorem C4_acb_sell_witness :
    c4sell.quantity ≠ 0 ∧
    ((processSell c4sell c4state).isSome = true ∧
    avgTotalsAfterSell c4sell c4state =
      (max 0 ((c4state.avgTotals c4sell.asset).1 - c4sell.quantity),
        max 0 ((c4state.avgTotals c4sell.asset).2 -
          min c4sell.quantity (c4state.avgTotals c4sell.asset).1 *
            acbAvgCost c4state c4sell.asset)) ∧
    acbDelta c4sell c4state =
      c4sell.quantity * (sellSalePrice c4sell - acbAvgCost c4state c4sell.asset)) :=
  ⟨by norm_num [c4sell], C4_acb_sell c4state c4sell (by norm_num [c4sell])⟩

/-- Claim C5: for a SELL with nonzero quantity, exactly one enhanced
record is appended when and only when the FIFO-matched quantity is
strictly below the declared quantity (the LIFO pass never touches the
record list), carrying enhanced quantity = declared − matched and
enhanced value = enhanced quantity × salePrice; the FIFO ledger receives
the loop gain plus, in that case, enhanced quantity × salePrice with no
cost basis. -/
theorem C5_enhanced_record (s : ProcState) (tx : Tx) (h : tx.quantity ≠ 0) :
    (processSell tx s).isSome = true ∧
    (sellMatchedFifo tx s < tx.quantity →
      enhancedAfterSell tx s = s.enhancedTxs ++
        [⟨tx.ts, tx.asset, tx.txnType, tx.quantity, sellMatchedFifo tx s,
          tx.quantity - sellMatchedFifo tx s, sellSalePrice tx,
          (tx.quantity - sellMatchedFifo tx s) * sellSalePrice tx, statusEnhanced⟩]) ∧
    (¬ sellMatchedFifo tx s < tx.quantity → enhancedAfterSell tx s = s.enhancedTxs) ∧
    fifoDelta tx s =
      (consumeFIFO (s.buyLotsFifo tx.asset) (sellMatchedFifo tx s) (sellSalePrice tx)).2 +
        (if sellMatchedFifo tx s < tx.quantity then
          (tx.quantity - sellMatchedFifo tx s) * sellSalePrice tx else 0) := by
  refine ⟨by simp [processSell_eq tx s h], ?_, ?_, ?_⟩
  · intro hlt
    rw [enhancedAfterSell_eq tx s h, if_pos (sub_pos.mpr hlt)]
  · intro hlt
    rw [enhancedAfterSell_eq tx s h, if_neg (fun hc => hlt (sub_pos.mp hc))]
  · have hsw : (if 0 < tx.quantity - sellMatchedFifo tx s then
        (tx.quantity - sellMatchedFifo tx s) * sellSalePrice tx else 0) =
        (if sellMatchedFifo tx s < tx.quantity then
          (tx.quantity - sellMatchedFifo tx s) * sellSalePrice tx else 0) := by
      by_cases hc : sellMatchedFifo tx s < tx.quantity
      · rw [if_pos (sub_pos.mpr hc), if_pos hc]
      · rw [if_neg (fun hh => hc (sub_pos.mp hh)), if_neg hc]
    rw [fifoDelta_eq tx s h, hsw]

/-- Witness for C5: the enhanced scenario of the design document (sell
of 2 units of an asset never bought). -/
theorem C5_enhanced_record_witness :
    c2sellEmpty.quantity ≠ 0 ∧
    ((processSell c2sellEmpty initState).isSome = true ∧
    (sellMatchedFifo c2sellEmpty initState < c2sellEmpty.quantity →
      enhancedAfterSell c2sellEmpty initState = initState.enhancedTxs ++
        [⟨c2sellEmpty.ts, c2sellEmpty.asset, c2sellEmpty.txnType, c2sellEmpty.quantity,
          sellMatchedFifo c2sellEmpty initState,
          c2sellEmpty.quantity - sellMatchedFifo c2sellEmpty initState,
          sellSalePrice c2sellEmpty,
          (c2sellEmpty.quantity - sellMatchedFifo c2sellEmpty initState) *
            sellSalePrice c2sellEmpty, statusEnhanced⟩]) ∧
    (¬ sellMatchedFifo c2sellEmpty initState < c2sellEmpty.quantity →
      enhancedAfterSell c2sellEmpty initState = initState.enhancedTxs) ∧
    fifoDelta c2sellEmpty initState =
      (consumeFIFO (initState.buyLotsFifo c2sellEmpty.asset)
          (sellMatchedFifo c2sellEmpty initState) (sellSalePrice c2sellEmpty)).2 +
        (if sellMatchedFifo c2sellEmpty initState < c2sellEmpty.quantity then
          (c2sellEmpty.quantity - sellMatchedFifo c2sellEmpty initState) *
            sellSalePrice c2sellEmpty else 0)) :=
  ⟨by norm_num [c2sellEmpty], C5_enhanced_record initState c2sellEmpty (by norm_num [c2sellEmpty])⟩

/-- Claim C6: after processing any stream (hence any prefix of a longer
stream), the available FIFO quantity of every asset equals its available
LIFO quantity; when a row raises, both observers fall back to the same
default, so the equation is unconditional. -/
theorem C6_available_totals_equal (txs : List Tx) (a : String) :
    fifoAvailAfter txs a = lifoAvailAfter txs a := by
  unfold fifoAvailAfter lifoAvailAfter
  cases hrun : runTxs txs initState with
  | none => rfl
  | some s =>
      simp only [Option.map_some', Option.getD_some]
      exact runTxs_availEq txs initState s hrun (fun _ => rfl) a

/-- Claim C9: along any stream of rows with non-negative quantities and
total values, the average-cost cumulative quantity and cumulative cost
of every asset stay non-negative. -/
theorem C9_acb_totals_nonneg (txs : List Tx) (a : String)
    (hpos : ∀ tx ∈ txs, 0 ≤ tx.quantity ∧ 0 ≤ tx.totalValue) :
    0 ≤ avgQtyAfter txs a ∧ 0 ≤ avgCostAfter txs a := by
  unfold avgQtyAfter avgCostAfter
  cases hrun : runTxs txs initState with
  | none => simp
  | some s =>
      simp only [Option.map_some', Option.getD_some]
      exact runTxs_avgNonneg txs initState s hrun hpos (fun b => by simp [initState]) a

/-- Witness for C9 on the buy-then-sell stream. -/
theorem C9_acb_totals_nonneg_witness :
    (∀ tx ∈ c6stream, 0 ≤ tx.quantity ∧ 0 ≤ tx.totalValue) ∧
    (0 ≤ avgQtyAfter c6stream ("A") ∧ 0 ≤ avgCostAfter c6stream ("A")) :=
  ⟨by norm_num [c6stream], C9_acb_totals_nonneg c6stream ("A") (by norm_num [c6stream])⟩

/-- Claim C10: both consumption loops terminate within
`number of lots + 1` iterations: the fuelled transcriptions of the two
while loops, given that much fuel, complete and agree with the total
functions. -/
theorem C10_loops_terminate (lots : List Lot) (r p : ℚ) :
    consumeFIFOFuel (lots.length + 1) lots r p = some (consumeFIFO lots r p) ∧
    consumeLIFOFuel (lots.length + 1) lots r p = some (consumeLIFO lots r p) :=
  ⟨consumeFIFOFuel_spec _ _ _ _ (Nat.lt_succ_self _),
    consumeLIFOFuel_spec _ _ _ _ (Nat.lt_succ_self _)⟩

/-- Claim C8: for any three gain ledgers, the report has exactly one row
per (asset, year) pair in the union of the keys of the three ledgers
(no duplicates), every row reads each ledger with default 0 for a
missing entry (columns Year, Asset, LIFO, FIFO, ACB in the row
structure), and the rows are sorted by year descending then asset
ascending. -/
theorem C8_report_builder (f l acb : Ledger) :
    ((generateReport f l acb).map (fun r => (r.asset, r.year))).Nodup ∧
    (∀ a y, (a, y) ∈ (generateReport f l acb).map (fun r => (r.asset, r.year)) ↔
      (y ∈ yearKeys (lookupA f a) ∨ y ∈ yearKeys (lookupA l a) ∨
        y ∈ yearKeys (lookupA acb a))) ∧
    (∀ r ∈ generateReport f l acb,
      r.lifoGL = getY (lookupA l r.asset) r.year ∧
      r.fifoGL = getY (lookupA f r.asset) r.year ∧
      r.acbGL = getY (lookupA acb r.asset) r.year) ∧
    (generateReport f l acb).Pairwise
      (fun r s => s.year < r.year ∨ (r.year = s.year ∧ r.asset ≤ s.asset)) := by
  have hperm : ((generateReport f l acb).map (fun r => (r.asset, r.year))).Perm
      ((generateReportRows f l acb).map (fun r => (r.asset, r.year))) :=
    (List.mergeSort_perm (generateReportRows f l acb) rowLE).map _
  refine ⟨?_, ?_, ?_, ?_⟩
  · rw [hperm.nodup_iff, generateReportRows_map_pairs]
    exact nodup_pairList _ _ (nodup_reportAssets f l acb) (nodup_reportYears f l acb)
  · intro a y
    rw [hperm.mem_iff, generateReportRows_map_pairs]
    constructor
    · intro hmem
      rw [List.mem_flatMap] at hmem
      obtain ⟨b, hb, hmem2⟩ := hmem
      rw [List.mem_map] at hmem2
      obtain ⟨y2, hy2, hp⟩ := hmem2
      have hba : b = a := (Prod.ext_iff.mp hp).1
      have hya : y2 = y := (Prod.ext_iff.mp hp).2
      subst hba; subst hya
      exact (mem_reportYears f l acb b y2).mp hy2
    · intro hy
      rw [List.mem_flatMap]
      refine ⟨a, ?_, ?_⟩
      · apply (mem_reportAssets f l acb a).mpr
        rcases hy with h1 | h1 | h1
        · exact Or.inl (mem_ledgerAssets_of_yearKeys f a y h1)
        · exact Or.inr (Or.inl (mem_ledgerAssets_of_yearKeys l a y h1))
        · exact Or.inr (Or.inr (mem_ledgerAssets_of_yearKeys acb a y h1))
      · rw [List.mem_map]
        exact ⟨y, (mem_reportYears f l acb a y).mpr hy, rfl⟩
  · intro r hr
    obtain ⟨a, _, y, _, rfl⟩ := (mem_generateReport f l acb r).mp hr
    exact ⟨rfl, rfl, rfl⟩
  · have hsorted := @List.sorted_mergeSort ReportRow rowLE
      (fun a b c h1 h2 => rowLE_trans a b c h1 h2)
      (fun a b => rowLE_total a b) (generateReportRows f l acb)
    exact hsorted.imp (fun {a b} h => by
      simpa only [rowLE, decide_eq_true_eq] using h)

/-- Claim C2 counterexample: with holdings of 1 unit at average cost 10
and a sell of 2 units at price 20, the ACB ledger records 20 in total,
of which the matched unit accounts for 10, so the unmatched unit
contributes 10 = unmatchedQty × (salePrice − averageCost); the claim
says it contributes unmatchedQty × salePrice = 20, which is what the
FIFO and LIFO ledgers receive, so the ACB contribution differs from
them. -/
theorem C2_unmatched_contribution_counterexample :
    (c2state.avgTotals c2sell.asset).1 < c2sell.quantity ∧
    acbUnmatchedContrib c2sell c2state = 10 ∧
    fifoUnmatchedContrib c2sell c2state = 20 ∧
    lifoUnmatchedContrib c2sell c2state = 20 ∧
    (c2sell.quantity - min c2sell.quantity (c2state.avgTotals c2sell.asset).1) *
      sellSalePrice c2sell = 20 ∧
    acbUnmatchedContrib c2sell c2state ≠
      (c2sell.quantity - min c2sell.quantity (c2state.avgTotals c2sell.asset).1) *
        sellSalePrice c2sell := by
  refine ⟨?_, ?_, ?_, ?_, ?_, ?_⟩
  · norm_num [c2state, c2sell, processBuy, initState, Function.update_same]
  · norm_num [acbUnmatchedContrib, acbDelta, matchedOnlyTx, sellSalePrice, c2sell, c2state,
      processSell, sellResult, processBuy, initState, sumQty, consumeFIFO, consumeLIFO,
      addGain, addYear, totalY, Function.update_same, Function.update, min_def, max_def,
      statusEnhanced]
  · norm_num [fifoUnmatchedContrib, fifoDelta, matchedOnlyTx, sellSalePrice, sellMatchedFifo,
      c2sell, c2state, processSell, sellResult, processBuy, initState, sumQty, consumeFIFO,
      consumeLIFO, addGain, addYear, totalY, Function.update_same, Function.update, min_def,
      max_def, statusEnhanced]
  · norm_num [lifoUnmatchedContrib, lifoDelta, matchedOnlyTx, sellSalePrice, c2sell, c2state,
      processSell, sellResult, processBuy, initState, sumQty, consumeFIFO, consumeLIFO,
      addGain, addYear, totalY, Function.update_same, Function.update, min_def, max_def,
      statusEnhanced]
  · norm_num [c2state, c2sell, sellSalePrice, processBuy, initState, Function.update_same,
      min_def]
  · norm_num [acbUnmatchedContrib, acbDelta, matchedOnlyTx, sellSalePrice, c2sell, c2state,
      processSell, sellResult, processBuy, initState, sumQty, consumeFIFO, consumeLIFO,
      addGain, addYear, totalY, Function.update_same, Function.update, min_def, max_def,
      statusEnhanced]

/-- Claim C2 (amended): for a sell whose declared quantity exceeds the
non-negative ACB holdings, the unmatched portion contributes
unmatchedQty × (salePrice − averageUnitCost) to the ACB ledger; this
equals the unmatchedQty × salePrice contribution of the FIFO/LIFO
treatment exactly when the average unit cost is 0 (in particular
whenever holdings are zero). -/
theorem C2_unmatched_contribution_amended (s : ProcState) (tx : Tx)
    (hq : 0 < tx.quantity) (hQ0 : 0 ≤ (s.avgTotals tx.asset).1)
    (hover : (s.avgTotals tx.asset).1 < tx.quantity) :
    acbUnmatchedContrib tx s =
      (tx.quantity - min tx.quantity (s.avgTotals tx.asset).1) *
        (sellSalePrice tx - acbAvgCost s tx.asset) ∧
    (acbAvgCost s tx.asset = 0 →
      acbUnmatchedContrib tx s =
        (tx.quantity - min tx.quantity (s.avgTotals tx.asset).1) * sellSalePrice tx) := by
  have hq0 : tx.quantity ≠ 0 := ne_of_gt hq
  have hmin : min tx.quantity (s.avgTotals tx.asset).1 = (s.avgTotals tx.asset).1 :=
    min_eq_right (le_of_lt hover)
  have hmain : acbUnmatchedContrib tx s =
      (tx.quantity - min tx.quantity (s.avgTotals tx.asset).1) *
        (sellSalePrice tx - acbAvgCost s tx.asset) := by
    unfold acbUnmatchedContrib
    rw [acbDelta_eq tx s hq0, hmin]
    by_cases hQ : (s.avgTotals tx.asset).1 = 0
    · have ha0 : acbAvgCost s tx.asset = 0 := by simp [acbAvgCost, hQ]
      have hd0 : acbDelta (matchedOnlyTx tx ((s.avgTotals tx.asset).1)) s = 0 := by
        simp [acbDelta, processSell, matchedOnlyTx, hQ]
      rw [hd0, hQ, ha0]
      ring
    · have hQpos : 0 < (s.avgTotals tx.asset).1 := lt_of_le_of_ne hQ0 (Ne.symm hQ)
      have hmq : (matchedOnlyTx tx ((s.avgTotals tx.asset).1)).quantity ≠ 0 := by
        simp [matchedOnlyTx]
        exact hQ
      rw [acbDelta_eq _ s hmq]
      have hsp : sellSalePrice (matchedOnlyTx tx ((s.avgTotals tx.asset).1)) =
          sellSalePrice tx := by
        simp only [sellSalePrice, matchedOnlyTx]
        field_simp
        ring
      have hassets : (matchedOnlyTx tx ((s.avgTotals tx.asset).1)).asset = tx.asset := rfl
      have hqty : (matchedOnlyTx tx ((s.avgTotals tx.asset).1)).quantity =
          (s.avgTotals tx.asset).1 := rfl
      rw [hsp, hassets, hqty]
      ring
  refine ⟨hmain, fun ha0 => ?_⟩
  rw [hmain, ha0, sub_zero]

/-- Witness for the amended C2: the enhanced scenario (sell of 2 units
with no holdings at all), where the contribution is the full
2 × 50 = 100 under all three methods. -/
theorem C2_unmatched_contribution_amended_witness :
    0 < c2sellEmpty.quantity ∧
    0 ≤ (initState.avgTotals c2sellEmpty.asset).1 ∧
    (initState.avgTotals c2sellEmpty.asset).1 < c2sellEmpty.quantity ∧
    (acbUnmatchedContrib c2sellEmpty initState =
      (c2sellEmpty.quantity - min c2sellEmpty.quantity
          (initState.avgTotals c2sellEmpty.asset).1) *
        (sellSalePrice c2sellEmpty - acbAvgCost initState c2sellEmpty.asset) ∧
    (acbAvgCost initState c2sellEmpty.asset = 0 →
      acbUnmatchedContrib c2sellEmpty initState =
        (c2sellEmpty.quantity - min c2sellEmpty.quantity
            (initState.avgTotals c2sellEmpty.asset).1) * sellSalePrice c2sellEmpty)) :=
  ⟨by norm_num [c2sellEmpty], by norm_num [initState],
    by norm_num [initState, c2sellEmpty],
    C2_unmatched_contribution_amended initState c2sellEmpty (by norm_num [c2sellEmpty])
      (by norm_num [initState]) (by norm_num [initState, c2sellEmpty])⟩

theorem beqSellBuy : (("SELL" : String) == "BUY") = false := by decide

theorem beqBuySell : (("BUY" : String) == "SELL") = false := by decide

/-- Claim C7 counterexample: the stream sells 1 unit of A before any
buy (an enhanced sell), then buys 1 unit at 10 and 1 at 20, then sells
1 unit at 50. Total bought (2) equals total sold (2), yet the final
sell consumes the 10-lot under FIFO and the 20-lot under LIFO and one
lot is never consumed, so the all-time FIFO total is 90 and the LIFO
total is 80. -/
theorem C7_equal_totals_counterexample :
    totalBoughtQty c7stream ("A") = totalSoldQty c7stream ("A") ∧
    (runTxs c7stream initState).isSome = true ∧
    fifoTotalAfter c7stream ("A") = 90 ∧
    lifoTotalAfter c7stream ("A") = 80 ∧
    fifoTotalAfter c7stream ("A") ≠ lifoTotalAfter c7stream ("A") := by
  refine ⟨?_, ?_, ?_, ?_, ?_⟩
  · norm_num [totalBoughtQty, totalSoldQty, c7stream, List.filter,
      normTypeBuyEval, normTypeSellEval, beqSellBuy, beqBuySell]
  · norm_num [c7stream, runTxs, processRow, processSell, sellResult, processBuy,
      normTypeBuyEval, normTypeSellEval, stringSellNeBuy, initState, sumQty, consumeFIFO,
      consumeLIFO, addGain, addYear, totalY, Function.update_same, Function.update,
      min_def, max_def, statusEnhanced]
  · norm_num [fifoTotalAfter, c7stream, runTxs, processRow, processSell, sellResult,
      processBuy, normTypeBuyEval, normTypeSellEval, stringSellNeBuy, initState, sumQty,
      consumeFIFO, consumeLIFO, addGain, addYear, totalY, Function.update_same,
      Function.update, min_def, max_def, statusEnhanced]
  · norm_num [lifoTotalAfter, c7stream, runTxs, processRow, processSell, sellResult,
      processBuy, normTypeBuyEval, normTypeSellEval, stringSellNeBuy, initState, sumQty,
      consumeFIFO, consumeLIFO, addGain, addYear, totalY, Function.update_same,
      Function.update, min_def, max_def, statusEnhanced]
  · norm_num [fifoTotalAfter, lifoTotalAfter, c7stream, runTxs, processRow, processSell,
      sellResult, processBuy, normTypeBuyEval, normTypeSellEval, stringSellNeBuy, initState,
      sumQty, consumeFIFO, consumeLIFO, addGain, addYear, totalY, Function.update_same,
      Function.update, min_def, max_def, statusEnhanced]

/-- Claim C7 (amended): for an asset with positive row quantities whose
total bought quantity equals its total sold quantity AND all of whose
sells were fully FIFO-matched (no enhanced record exists for the asset
at the end of the run), the all-time FIFO and LIFO gain totals agree. -/
theorem C7_full_match_equal_totals (txs : List Tx) (a : String)
    (hpos : ∀ tx ∈ txs, 0 < tx.quantity)
    (hsome : (runTxs txs initState).isSome = true)
    (hbal : totalBoughtQty txs a = totalSoldQty txs a)
    (hnorec : noRecAfter txs a = true) :
    fifoTotalAfter txs a = lifoTotalAfter txs a := by
  obtain ⟨s, hs⟩ := Option.isSome_iff_exists.mp hsome
  have hinv0 : AssetInv a initState 0 := by
    refine ⟨?_, ?_, ?_, ?_, ?_⟩ <;> simp [initState, sumQty, sumCost, totalY]
  have hinv := runTxs_assetInv a txs initState s 0 hs hpos hinv0
  obtain ⟨hF, hL, hsum, hgain, hnet⟩ := hinv
  have hnr : ∀ r ∈ s.enhancedTxs, r.asset ≠ a := by
    intro r hr
    rw [noRecAfter, hs] at hnorec
    simp only [Option.map_some', Option.getD_some, List.all_eq_true] at hnorec
    simpa using hnorec r hr
  have hzero : sumQty (s.buyLotsFifo a) = 0 := by
    have hq := hnet hnr
    rw [hbal] at hq
    linarith
  have hFnil : s.buyLotsFifo a = [] := sumQty_zero_of_pos _ hF hzero
  have hLzero : sumQty (s.buyLotsLifo a) = 0 := by rw [← hsum]; exact hzero
  have hLnil : s.buyLotsLifo a = [] := sumQty_zero_of_pos _ hL hLzero
  have hdiff : totalY (s.fifoGains a) - totalY (s.lifoGains a) = 0 := by
    rw [hgain, hFnil, hLnil]
    simp [sumCost_nil]
  unfold fifoTotalAfter lifoTotalAfter
  rw [hs]
  simp only [Option.map_some', Option.getD_some]
  linarith

/-- Witness for the amended C7: buy 1 at 10 then sell it at 50;
bought equals sold, no enhanced record, and both totals are 40. -/
theorem C7_full_match_equal_totals_witness :
    (∀ tx ∈ c7okStream, 0 < tx.quantity) ∧
    (runTxs c7okStream initState).isSome = true ∧
    totalBoughtQty c7okStream ("A") = totalSoldQty c7okStream ("A") ∧
    noRecAfter c7okStream ("A") = true ∧
    fifoTotalAfter c7okStream ("A") = lifoTotalAfter c7okStream ("A") := by
  refine ⟨?_, ?_, ?_, ?_, ?_⟩
  · norm_num [c7okStream]
  · norm_num [c7okStream, runTxs, processRow, processSell, sellResult, processBuy,
      normTypeBuyEval, normTypeSellEval, stringSellNeBuy, initState, sumQty, consumeFIFO,
      consumeLIFO, addGain, addYear, totalY, Function.update_same, Function.update,
      min_def, max_def, statusEnhanced]
  · norm_num [totalBoughtQty, totalSoldQty, c7okStream, List.filter,
      normTypeBuyEval, normTypeSellEval, beqSellBuy, beqBuySell]
  · norm_num [noRecAfter, c7okStream, runTxs, processRow, processSell, sellResult,
      processBuy, normTypeBuyEval, normTypeSellEval, stringSellNeBuy, initState, sumQty,
      consumeFIFO, consumeLIFO, addGain, addYear, totalY, Function.update_same,
      Function.update, min_def, max_def, statusEnhanced]
  · exact C7_full_match_equal_totals c7okStream ("A")
      (by norm_num [c7okStream])
      (by norm_num [c7okStream, runTxs, processRow, processSell, sellResult, processBuy,
        normTypeBuyEval, normTypeSellEval, stringSellNeBuy, initState, sumQty, consumeFIFO,
        consumeLIFO, addGain, addYear, totalY, Function.update_same, Function.update,
        min_def, max_def, statusEnhanced])
      (by norm_num [totalBoughtQty, totalSoldQty, c7okStream, List.filter,
        normTypeBuyEval, normTypeSellEval, beqSellBuy, beqBuySell])
      (by norm_num [noRecAfter, c7okStream, runTxs, processRow, processSell, sellResult,
        processBuy, normTypeBuyEval, normTypeSellEval, stringSellNeBuy, initState, sumQty,
        consumeFIFO, consumeLIFO, addGain, addYear, totalY, Function.update_same,
        Function.update, min_def, max_def, statusEnhanced])
